import Mathlib

/-!
Verification development for `runtime/acl` and `ssa` (package `pkg`).

Shallow embedding of

* `runtime/acl/acl.go`  — `Authorization.HasAccessToRef`
* `ssa/manager_diff.go` — `ResourceManager.Diff`, `hasDrifted`, `hasFieldDrifted`,
  `validationError`

Go maps are association lists (first binding wins on lookup), Go strings are `String`,
a Go `error` is a value of `GoError` (`nil` is `Option.none`).
-/

set_option autoImplicit false
set_option maxRecDepth 100000

/-! ## Go errors -/

/-- What the code can observe of an error handed back by the API client:
`err.Error()`, `apierrors.IsNotFound(err)`, `apierrors.ReasonForError(err)` and whether
`apierrors.StatusCause(err, metav1.CauseTypeFieldManagerConflict)` finds a cause. -/
structure UpstreamError where
  Error : String
  IsNotFound : Bool
  ReasonForError : String
  FieldManagerConflict : Bool
  deriving DecidableEq, Repr

/-- Go `error` values: an error received from a collaborator, a leaf error identified by
its text, the result of `fmt.Errorf` without a `%w` verb, or the result of `fmt.Errorf`
with a `%w` verb, which carries the operand of `%w`. -/
inductive GoError where
  | upstream (e : UpstreamError) : GoError
  | leaf (text : String) : GoError
  | errorf (text : String) : GoError
  | wrap (text : String) (wrapped : GoError) : GoError
  deriving DecidableEq, Repr

namespace GoError

/-- The text of `err.Error()`. -/
def Error : GoError → String
  | upstream e => e.Error
  | leaf text => text
  | errorf text => text
  | wrap text _ => text

/-- The result of `errors.Unwrap(err)`. -/
def Unwrap : GoError → Option GoError
  | wrap _ wrapped => some wrapped
  | _ => none

end GoError

/-- Go `strings.Contains(s, substr)`. -/
def Contains (s substr : String) : Prop := substr.data <:+: s.data

instance (s substr : String) : Decidable (Contains s substr) := by
  unfold Contains; infer_instance

/-! ## `runtime/acl` -/

namespace acl

/-- A Go `map[string]string` of labels. -/
abbrev LabelMap := List (String × String)

/-- Go `m[k]` with the comma-ok form on a `map[string]string`. -/
def LabelMap.get? (m : LabelMap) (k : String) : Option String :=
  match m with
  | [] => none
  | (k', v) :: rest => if k' = k then some v else LabelMap.get? rest k

/-- The type `types.NamespacedName`. -/
structure NamespacedName where
  Namespace : String
  Name : String
  deriving DecidableEq, Repr

/-- The type `aclapi.NamespaceSelector` (declared in package `apis/acl`): a selector
is a mapping of label key to required value. -/
structure NamespaceSelector where
  MatchLabels : LabelMap
  deriving DecidableEq, Repr

/-- The type `aclapi.AccessFrom` (declared in package `apis/acl`): an ordered list of
namespace selectors. -/
structure AccessFrom where
  NamespaceSelectors : List NamespaceSelector
  deriving DecidableEq, Repr

/-- The part of `client.Object` that `HasAccessToRef` reads: `object.GetNamespace()`. -/
structure Object where
  Namespace : String
  Name : String
  deriving DecidableEq, Repr

/-- The part of `corev1.Namespace` that `HasAccessToRef` reads: its labels. -/
structure Namespace where
  Labels : LabelMap
  deriving DecidableEq, Repr

/-- The object-store client: `Get` of the cluster-scoped Namespace with the given name. -/
structure Client where
  Get : String → Except GoError Namespace

/-- One call made on the client. `HasAccessToRef` only ever issues reads. -/
inductive ClientCall where
  | get (name : String) : ClientCall
  | write (name : String) : ClientCall
  deriving DecidableEq, Repr

/-- Recognises `[A-Za-z0-9]`. -/
def isAlnum (c : Char) : Bool :=
  (decide ('a' ≤ c) && decide (c ≤ 'z')) || (decide ('A' ≤ c) && decide (c ≤ 'Z'))
    || (decide ('0' ≤ c) && decide (c ≤ '9'))

/-- Recognises `[-A-Za-z0-9_.]`. -/
def isNameChar (c : Char) : Bool :=
  isAlnum c || c == '-' || c == '_' || c == '.'

/-- Recognises `[a-z0-9]`. -/
def isLowerAlnum (c : Char) : Bool :=
  (decide ('a' ≤ c) && decide (c ≤ 'z')) || (decide ('0' ≤ c) && decide (c ≤ '9'))

/-- Matches `^([A-Za-z0-9][-A-Za-z0-9_.]*)?[A-Za-z0-9]$`. -/
def matchesQualifiedName (cs : List Char) : Bool :=
  match cs.head?, cs.getLast? with
  | some a, some z => isAlnum a && isAlnum z && cs.all isNameChar
  | _, _ => false

/-- Matches `^[a-z0-9]([-a-z0-9]*[a-z0-9])?$`, one label of a DNS-1123 subdomain. -/
def matchesDNS1123Label (cs : List Char) : Bool :=
  match cs.head?, cs.getLast? with
  | some a, some z =>
    isLowerAlnum a && isLowerAlnum z && cs.all (fun c => isLowerAlnum c || c == '-')
  | _, _ => false

/-- Go `strings.Split(s, sep)` for a one-character separator, on the characters of `s`. -/
def splitChars (sep : Char) : List Char → List (List Char)
  | [] => [[]]
  | c :: cs =>
    if c = sep then [] :: splitChars sep cs
    else
      match splitChars sep cs with
      | [] => [[c]]
      | p :: ps => (c :: p) :: ps

/-- Validity under `validation.IsDNS1123Subdomain`: at most 253 characters, dot-separated
DNS-1123 labels. -/
def IsDNS1123Subdomain (cs : List Char) : Bool :=
  decide (cs.length ≤ 253) && (splitChars '.' cs).all matchesDNS1123Label

/-- Validity under `validation.IsQualifiedName` (apimachinery), the check
`labels.NewRequirement` applies to a label key: an optional DNS-subdomain prefix and `/`,
then a name of 1 to 63 characters. -/
def IsQualifiedName (key : String) : Bool :=
  match splitChars '/' key.data with
  | [name] => decide (name.length ≤ 63) && matchesQualifiedName name
  | [pfx, name] =>
    !pfx.isEmpty && IsDNS1123Subdomain pfx && decide (name.length ≤ 63)
      && matchesQualifiedName name
  | _ => false

/-- Validity under `validation.IsValidLabelValue` (apimachinery), the check
`labels.NewRequirement` applies to a label value: empty, or at most 63 characters of the
qualified-name shape. -/
def IsValidLabelValue (value : String) : Bool :=
  decide (value.length ≤ 63) && (value.data.isEmpty || matchesQualifiedName value.data)

/-- Modelled from the spec: the equality matcher built from a selector's key to value map
(§4.2), in the code a `labels.Selector` (apimachinery; its source is not part of this
repository): a list of requirements `key = value`; the empty list is
`labels.Everything()`. -/
structure Selector where
  requirements : List (String × String)
  deriving DecidableEq, Repr

/-- Modelled from the spec: a selector matches the retrieved labels when all of its pairs
match (§4.2, logical AND within a selector), in the code `sel.Matches(labels.Set(ls))`:
every requirement's key is in the set with exactly the required value. -/
def Selector.Matches (sel : Selector) (ls : LabelMap) : Bool :=
  sel.requirements.all (fun r => decide (LabelMap.get? ls r.1 = some r.2))

/-- Modelled from the spec: building the equality matcher of a selector (§4.2), which fails
with `SelectorError` on malformed selector criteria (§7); in the code
`metav1.LabelSelectorAsSelector(&metav1.LabelSelector{MatchLabels: m})` (apimachinery; its
source is not part of this repository): one `Equals` requirement per pair, failing as soon
as `labels.NewRequirement` rejects a key (not a qualified name) or a value (not a valid
label value). -/
def LabelSelectorAsSelector (m : LabelMap) : Except GoError Selector :=
  match m.find? (fun kv => !(IsQualifiedName kv.1 && IsValidLabelValue kv.2)) with
  | some kv => .error (.leaf ("invalid label requirement: " ++ kv.1 ++ "=" ++ kv.2))
  | none => .ok ⟨m⟩

/-- What one call of `HasAccessToRef` produces: the two return values and the calls it made
on the client, in order. -/
structure Outcome where
  allowed : Bool
  err : Option GoError
  calls : List ClientCall
  deriving DecidableEq, Repr

/-- The loop `for _, selector := range acl.NamespaceSelectors` of `HasAccessToRef`:
`some r` when the loop body returns `r`, `none` when the loop runs to its end. -/
def selectorLoop (sourceLabels : LabelMap) :
    List NamespaceSelector → Option (Bool × Option GoError)
  | [] => none
  | selector :: rest =>
    match LabelSelectorAsSelector selector.MatchLabels with
    | .error err => some (false, some err)
    | .ok sel =>
      if sel.Matches sourceLabels then some (true, none)
      else selectorLoop sourceLabels rest

/-- The method `Authorization.HasAccessToRef` (`runtime/acl/acl.go`): `client` is the receiver's
`a.client`, `acl` is `none` for a nil `*aclapi.AccessFrom`. -/
def HasAccessToRef (client : Client) (object : Object) (reference : NamespacedName)
    (acl : Option AccessFrom) : Outcome :=
  -- grant access if the object is in the same namespace as the reference
  if reference.Namespace = "" ∨ object.Namespace = reference.Namespace then
    ⟨true, none, []⟩
  else
    -- deny access if no ACL is defined on the reference
    match acl with
    | none =>
      ⟨false,
        some (.errorf ("'" ++ reference.Namespace ++ "/" ++ reference.Name
          ++ "' can't be accessed due to missing ACL labels on 'accessFrom'")),
        []⟩
    | some acl =>
      -- get the object's namespace labels
      match client.Get object.Namespace with
      | .error err => ⟨false, some err, [.get object.Namespace]⟩
      | .ok sourceNamespace =>
        let sourceLabels := sourceNamespace.Labels
        -- check if the object's namespace labels match any ACL
        match selectorLoop sourceLabels acl.NamespaceSelectors with
        | some (allowed, err) => ⟨allowed, err, [.get object.Namespace]⟩
        | none =>
          ⟨false,
            some (.errorf ("'" ++ reference.Namespace ++ "/" ++ reference.Name
              ++ "' can't be accessed due to ACL labels mismatch on namespace '"
              ++ object.Namespace ++ "'")),
            [.get object.Namespace]⟩

/-- A selector all of whose `matchLabels` pairs are present in the label map. -/
def selectorPairsPresent (ls : LabelMap) (s : NamespaceSelector) : Prop :=
  ∀ kv ∈ s.MatchLabels, LabelMap.get? ls kv.1 = some kv.2

instance (ls : LabelMap) (s : NamespaceSelector) : Decidable (selectorPairsPresent ls s) := by
  unfold selectorPairsPresent; infer_instance

end acl

/-! ## `ssa` -/

namespace ssa

/-- A value held in `unstructured.Unstructured`: the Go `interface{}` values that JSON
decoding produces (`nil`, `bool`, `int64`, `string`, `[]interface{}`,
`map[string]interface{}`). `float64` numbers are not represented. -/
inductive Val where
  | null : Val
  | bool (b : Bool) : Val
  | num (n : Int) : Val
  | str (s : String) : Val
  | seq (xs : List Val) : Val
  | map (fs : List (String × Val)) : Val
  deriving Repr

/-- A Go `map[string]interface{}`. -/
abbrev Fields := List (String × Val)

/-- Go `v, ok := m[k]`. -/
def Fields.get? (m : Fields) (k : String) : Option Val :=
  match m with
  | [] => none
  | (k', v) :: rest => if k' = k then some v else Fields.get? rest k

/-- Go `m[k]`: the nil interface when the key is absent. -/
def Fields.index (m : Fields) (k : String) : Val :=
  match Fields.get? m k with
  | some v => v
  | none => .null

/-- Go `delete(m, k)`. -/
def Fields.delete (m : Fields) (k : String) : Fields :=
  m.filter (fun kv => !(kv.1 == k))

/-- Go `m[k] = v` for a key that `m` already holds. -/
def Fields.set (m : Fields) (k : String) (v : Val) : Fields :=
  match m with
  | [] => []
  | (k', w) :: rest => if k' = k then (k', v) :: rest else (k', w) :: Fields.set rest k v

/-- The type `unstructured.Unstructured`. -/
structure Unstructured where
  Object : Fields
  deriving Repr

/-- Go `unstructured.NestedFieldNoCopy(obj, fields...)`: the value found under the path,
`none` when a step is missing or meets a value that is not a map. -/
def NestedFieldNoCopy : Val → List String → Option Val
  | val, [] => some val
  | .map m, field :: rest =>
    match Fields.get? m field with
    | some v => NestedFieldNoCopy v rest
    | none => none
  | _, _ :: _ => none

/-- Go `unstructured.NestedString` as the accessors use it: the string under the path,
`""` when absent or not a string. -/
def NestedString (obj : Fields) (fields : List String) : String :=
  match NestedFieldNoCopy (.map obj) fields with
  | some (.str s) => s
  | _ => ""

/-- Converts a `map[string]interface{}` to `map[string]string`; fails on a value that is
not a string. -/
def toStringMap : Fields → Option (List (String × String))
  | [] => some []
  | (k, .str s) :: rest =>
    match toStringMap rest with
    | some m => some ((k, s) :: m)
    | none => none
  | _ :: _ => none

/-- Go `unstructured.NestedStringMap` as the accessors use it: the string map under the
path, the nil (empty) map when absent or ill-typed. -/
def NestedStringMap (obj : Fields) (fields : List String) : List (String × String) :=
  match NestedFieldNoCopy (.map obj) fields with
  | some (.map m) =>
    match toStringMap m with
    | some sm => sm
    | none => []
  | _ => []

/-- Go `unstructured.RemoveNestedField(obj, fields...)`. -/
def RemoveNestedField : Fields → List String → Fields
  | obj, [] => obj
  | obj, [field] => Fields.delete obj field
  | obj, field :: rest =>
    match Fields.get? obj field with
    | some (.map x) => Fields.set obj field (.map (RemoveNestedField x rest))
    | _ => obj

namespace Unstructured

/-- Go `u.GetKind()`. -/
def GetKind (u : Unstructured) : String := NestedString u.Object ["kind"]

/-- Go `u.GetNamespace()`. -/
def GetNamespace (u : Unstructured) : String := NestedString u.Object ["metadata", "namespace"]

/-- Go `u.GetName()`. -/
def GetName (u : Unstructured) : String := NestedString u.Object ["metadata", "name"]

/-- Go `u.GetResourceVersion()`. -/
def GetResourceVersion (u : Unstructured) : String :=
  NestedString u.Object ["metadata", "resourceVersion"]

/-- Go `u.GetLabels()`. -/
def GetLabels (u : Unstructured) : List (String × String) :=
  NestedStringMap u.Object ["metadata", "labels"]

/-- Go `u.GetAnnotations()`. -/
def GetAnnotations (u : Unstructured) : List (String × String) :=
  NestedStringMap u.Object ["metadata", "annotations"]

end Unstructured

/-- A Go `map[string]string` as a value, for handing to the comparison. -/
def Val.ofStringMap (m : List (String × String)) : Val :=
  .map (m.map (fun kv => (kv.1, .str kv.2)))

mutual
/-- Modelled from the spec: `IsCompatibleSubset(desired, existing)` (§4.1), the comparison
the code calls as `apiequality.Semantic.DeepDerivative` (apimachinery; its source is not
part of this repository). True iff every field present in `desired` exists in `existing`
with an equal or recursively compatible value; fields present only in `existing` are
ignored; it applies recursively through maps and sequences; scalars are compared by
equality. An absent (`nil`) `desired` has no field present. -/
def DeepDerivative : Val → Val → Bool
  | .null, _ => true
  | .bool a, .bool b => a == b
  | .num a, .num b => a == b
  | .str a, .str b => a == b
  | .seq xs, .seq ys => DeepDerivative.seq xs ys
  | .map fs, .map gs => DeepDerivative.fields fs gs
  | _, _ => false
/-- Sequences: every position of `desired` exists in `existing` with a compatible value. -/
def DeepDerivative.seq : List Val → List Val → Bool
  | [], _ => true
  | _ :: _, [] => false
  | x :: xs, y :: ys => DeepDerivative x y && DeepDerivative.seq xs ys
/-- Maps: every key of `desired` exists in `existing` with a compatible value. -/
def DeepDerivative.fields : List (String × Val) → List (String × Val) → Bool
  | [], _ => true
  | (k, v) :: rest, gs =>
    (match Fields.get? gs k with
     | some w => DeepDerivative v w
     | none => false) && DeepDerivative.fields rest gs
end

mutual
/-- Well-formedness of a value as a Go value: no map holds a key twice. -/
def Val.WF : Val → Bool
  | .seq xs => Val.WF.seq xs
  | .map fs => decide ((fs.map Prod.fst).Nodup) && Val.WF.fields fs
  | _ => true
/-- Every element of a sequence is well formed. -/
def Val.WF.seq : List Val → Bool
  | [] => true
  | x :: xs => Val.WF x && Val.WF.seq xs
/-- Every value of a map is well formed. -/
def Val.WF.fields : List (String × Val) → Bool
  | [] => true
  | (_, v) :: rest => Val.WF v && Val.WF.fields rest
end

/-- Well-formedness of an object: its field tree is a well-formed Go map. -/
def Unstructured.WF (u : Unstructured) : Bool := Val.WF (.map u.Object)

/-- The tracked top-level fields, in the order `hasDrifted` visits them. -/
def trackedFields : List String :=
  ["spec", "webhooks", "rules", "subjects", "roleRef", "subsets", "data", "binaryData",
    "stringData", "immutable"]

/-- The function `hasFieldDrifted` (`ssa/manager_diff.go`); `dd` is `apiequality.Semantic.DeepDerivative`. -/
def hasFieldDrifted (dd : Val → Val → Bool) (existingObject dryRunObject : Unstructured)
    (field : String) : Bool :=
  match Fields.get? existingObject.Object field with
  | some v => !dd (Fields.index dryRunObject.Object field) v
  | none => false

/-- The loop over the tracked fields in `hasDrifted`, started with the current value of
`found`: `none` when the body returns `true`, `some found` when the loop runs to its end. -/
def trackedLoop (dd : Val → Val → Bool) (existingObject dryRunObject : Unstructured) :
    List String → Bool → Option Bool
  | [], found => some found
  | field :: rest, found =>
    let found := if (Fields.get? existingObject.Object field).isSome then true else found
    if hasFieldDrifted dd existingObject dryRunObject field then none
    else trackedLoop dd existingObject dryRunObject rest found

/-- The method `ResourceManager.hasDrifted` (`ssa/manager_diff.go`); `dd` is
`apiequality.Semantic.DeepDerivative`. -/
def hasDrifted (dd : Val → Val → Bool) (existingObject dryRunObject : Unstructured) : Bool :=
  if dryRunObject.GetResourceVersion = "" then true
  else if !dd (Val.ofStringMap dryRunObject.GetLabels)
      (Val.ofStringMap existingObject.GetLabels) then true
  else if !dd (Val.ofStringMap dryRunObject.GetAnnotations)
      (Val.ofStringMap existingObject.GetAnnotations) then true
  else
    match trackedLoop dd existingObject dryRunObject trackedFields false with
    | none => true
    | some found =>
      if !found then
        if !dd (.map dryRunObject.Object) (.map existingObject.Object) then true
        else false
      else false

/-- Go `strings.ToLower` on the ASCII letters (reason codes are ASCII identifiers). -/
def ToLower (s : String) : String := ⟨s.data.map Char.toLower⟩

/-- The constant `metav1.CauseTypeFieldManagerConflict`. -/
def CauseTypeFieldManagerConflict : String := "FieldManagerConflict"

/-- The method `ResourceManager.validationError` (`ssa/manager_diff.go`); `FmtUnstructured` is the
package function of that name, declared in another file of package `ssa`. -/
def validationError (FmtUnstructured : Unstructured → String) (object : Unstructured)
    (err : UpstreamError) : GoError :=
  if err.IsNotFound then
    .wrap (FmtUnstructured object ++ " namespace not specified, error: " ++ err.Error)
      (.upstream err)
  else
    let reason := err.ReasonForError
    if object.GetKind = "Secret" then
      let msg :=
        if Contains err.Error "immutable" then "secret is immutable"
        else "data values must be of type string"
      .errorf (FmtUnstructured object ++ " " ++ ToLower reason ++ ", error: " ++ msg)
    else
      -- detect managed field conflict
      let reason := if err.FieldManagerConflict then CauseTypeFieldManagerConflict else reason
      let reason := if reason ≠ "" then ", reason: " ++ reason else reason
      .wrap (FmtUnstructured object ++ " dry-run failed" ++ reason ++ ", error: " ++ err.Error)
        (.upstream err)

/-- The classification carried by a `ChangeSetEntry`. -/
inductive Action where
  | CreatedAction : Action
  | ConfiguredAction : Action
  | UnchangedAction : Action
  deriving DecidableEq, Repr

/-- Modelled from the spec: `ChangeSetEntry` (§3), declared in another file of package
`ssa`: a reference to the object it reports on, an action, and optional diff text (empty
when not set). -/
structure ChangeSetEntry where
  Subject : Unstructured
  Action : Action
  Diff : String
  deriving Repr

/-- Modelled from the spec: `ResourceManager.changeSetEntry` (§3), declared in another file
of package `ssa`: a fresh entry for the object with the given action and no diff text. -/
def changeSetEntry (object : Unstructured) (action : Action) : ChangeSetEntry :=
  ⟨object, action, ""⟩

/-- The receiver of `Diff`: the client's `Get` of the stored object with the key of the
given object, and the method `dryRunApply` (declared in another file of package `ssa`),
which yields the server's projection or the apply error. -/
structure ResourceManager where
  clientGet : Unstructured → Except GoError Unstructured
  dryRunApply : Unstructured → Except UpstreamError Unstructured

/-- Functions `Diff` calls that are declared outside `ssa/manager_diff.go`:
`FmtUnstructured` and `MaskSecret` (package `ssa`), `yaml.Marshal` (sigs.k8s.io/yaml) and
`cmp.Diff` (go-cmp), the latter with its documented contract: the report is empty if and
only if the two values are equal. -/
structure Externals where
  FmtUnstructured : Unstructured → String
  MaskSecret : Unstructured → String → Except GoError Unstructured
  Marshal : Unstructured → Except GoError String
  cmpDiff : String → String → String
  cmpDiff_empty_iff : ∀ x y : String, cmpDiff x y = "" ↔ x = y

/-- Go `d, _ := yaml.Marshal(o); string(d)`: the error is dropped and the bytes are then
nil, i.e. the empty string. -/
def Externals.marshalString (x : Externals) (o : Unstructured) : String :=
  match x.Marshal o with
  | .ok d => d
  | .error _ => ""

/-- The local `existingObject` of `Diff` after
`_ = m.client.Get(ctx, client.ObjectKeyFromObject(object), existingObject)`: the stored
object, or the copy of `object` when the read fails (the error is discarded). -/
def ResourceManager.existingObject (m : ResourceManager) (object : Unstructured) :
    Unstructured :=
  match m.clientGet object with
  | .ok stored => stored
  | .error _ => object

/-- Go `unstructured.RemoveNestedField(u.Object, "metadata", "managedFields")`. -/
def removeManagedFields (u : Unstructured) : Unstructured :=
  ⟨RemoveNestedField u.Object ["metadata", "managedFields"]⟩

/-- The method `ResourceManager.Diff` (`ssa/manager_diff.go`); `dd` is
`apiequality.Semantic.DeepDerivative`. -/
def Diff (dd : Val → Val → Bool) (x : Externals) (m : ResourceManager)
    (object : Unstructured) : Except GoError ChangeSetEntry :=
  let existingObject := m.existingObject object
  -- `dryRunObject` is the copy of `object` when the dry-run apply fails
  match m.dryRunApply object with
  | .error err => .error (validationError x.FmtUnstructured object err)
  | .ok dryRunObject =>
    if dryRunObject.GetResourceVersion = "" then
      .ok (changeSetEntry dryRunObject .CreatedAction)
    else if hasDrifted dd existingObject dryRunObject then
      let cse := changeSetEntry object .ConfiguredAction
      let dryRunObject := removeManagedFields dryRunObject
      let existingObject := removeManagedFields existingObject
      if dryRunObject.GetKind = "Secret" then
        match x.MaskSecret dryRunObject "******" with
        | .error err =>
          .error (.wrap ("masking secret data failed, error: " ++ err.Error) err)
        | .ok d =>
          match x.MaskSecret existingObject "*****" with
          | .error err =>
            .error (.wrap ("masking secret data failed, error: " ++ err.Error) err)
          | .ok ex =>
            .ok { cse with Diff := x.cmpDiff (x.marshalString ex) (x.marshalString d) }
      else
        .ok { cse with
          Diff := x.cmpDiff (x.marshalString existingObject) (x.marshalString dryRunObject) }
    else
      .ok (changeSetEntry dryRunObject .UnchangedAction)

/-- The action of the entry `Diff` returned, `none` when it returned an error. -/
def actionOf (r : Except GoError ChangeSetEntry) : Option Action :=
  match r with
  | .ok cse => some cse.Action
  | .error _ => none

/-- The diff text of the entry `Diff` returned, `none` when it returned an error. -/
def diffTextOf (r : Except GoError ChangeSetEntry) : Option String :=
  match r with
  | .ok cse => some cse.Diff
  | .error _ => none

/-- Replaces every value of a map by the mask. -/
def maskValues (mask : String) (m : Fields) : Fields :=
  m.map (fun kv => (kv.1, Val.str mask))

/-- Masks the values under one top-level field, failing when the field is not a map. -/
def maskField (mask : String) (field : String) (obj : Fields) : Except GoError Fields :=
  match Fields.get? obj field with
  | none => .ok obj
  | some (.map m) => .ok (Fields.set obj field (.map (maskValues mask m)))
  | some _ => .error (.leaf ("." ++ field ++ " accessor error: expected a map"))

/-- Modelled from the spec: `MaskSecret` (§4.4), declared in another file of package `ssa`:
every value under the data-bearing fields (`data`, `stringData`) is replaced by the given
fixed-length mask; masking fails on a data-bearing field that is not a map. -/
def MaskSecret (object : Unstructured) (mask : String) : Except GoError Unstructured :=
  match maskField mask "data" object.Object with
  | .error err => .error err
  | .ok obj =>
    match maskField mask "stringData" obj with
    | .error err => .error err
    | .ok obj => .ok ⟨obj⟩

/-- Decimal digits of a natural number, least significant first, at most `fuel` of them. -/
def natDigits : Nat → Nat → List Char
  | 0, _ => []
  | fuel + 1, n =>
    Char.ofNat (48 + n % 10) :: (if n / 10 = 0 then [] else natDigits fuel (n / 10))

/-- Decimal text of an integer. -/
def renderInt (n : Int) : String :=
  match n with
  | .ofNat k => ⟨(natDigits (k + 1) k).reverse⟩
  | .negSucc k => ⟨'-' :: (natDigits (k + 2) (k + 1)).reverse⟩

mutual
/-- A flow-style YAML rendering of a value, keys in stored order. -/
def renderVal : Val → String
  | .null => "null"
  | .bool b => if b then "true" else "false"
  | .num n => renderInt n
  | .str s => "\"" ++ s ++ "\""
  | .seq xs => "[" ++ renderVal.seq xs ++ "]"
  | .map fs => "\x7b" ++ renderVal.fields fs ++ "\x7d"
/-- The elements of a sequence, each followed by a comma. -/
def renderVal.seq : List Val → String
  | [] => ""
  | x :: xs => renderVal x ++ "," ++ renderVal.seq xs
/-- The entries of a map, each followed by a comma. -/
def renderVal.fields : List (String × Val) → String
  | [] => ""
  | (k, v) :: rest => k ++ ": " ++ renderVal v ++ "," ++ renderVal.fields rest
end

/-- A line report of two texts: empty when they are equal, otherwise the first text
marked `-` and the second marked `+`. -/
def reportDiff (a b : String) : String :=
  if a = b then "" else "-" ++ a ++ "\n+" ++ b

end ssa

/-! ## Sample inputs -/

namespace ssa

/-- A rendering of an object as `Kind/namespace/name`, used where a concrete
`FmtUnstructured` is needed. -/
def fmtKindNamespaceName (u : Unstructured) : String :=
  u.GetKind ++ "/" ++ u.GetNamespace ++ "/" ++ u.GetName

/-- A ConfigMap with the given labels, persisted at resourceVersion `"41"`. -/
def configMapWithLabels (labels : List (String × String)) : Unstructured :=
  ⟨[("apiVersion", .str "v1"), ("kind", .str "ConfigMap"),
    ("metadata", .map [("name", .str "settings"), ("namespace", .str "apps"),
      ("resourceVersion", .str "41"),
      ("labels", Val.ofStringMap labels)]),
    ("data", .map [("mode", .str "fast")])]⟩

/-- A Secret named `db` in namespace `prod`. -/
def secretObject : Unstructured :=
  ⟨[("apiVersion", .str "v1"), ("kind", .str "Secret"),
    ("metadata", .map [("name", .str "db"), ("namespace", .str "prod")]),
    ("data", .map [("password", .str "aHVudGVyMg==")])]⟩

/-- A Deployment named `web` in namespace `prod`. -/
def deploymentObject : Unstructured :=
  ⟨[("apiVersion", .str "apps/v1"), ("kind", .str "Deployment"),
    ("metadata", .map [("name", .str "web"), ("namespace", .str "prod")]),
    ("spec", .map [("replicas", .num 3)])]⟩

end ssa

namespace ssa

/-- The API server's rejection of a Secret whose data is not base64 text. -/
def invalidSecretError : UpstreamError :=
  ⟨"Secret \"db\" is invalid: data[password]: Invalid value: \"hunter2\"", false, "Invalid",
    false⟩

/-- A not-found-class error whose text also mentions an immutable field. -/
def notFoundImmutableError : UpstreamError :=
  ⟨"secrets \"db\" not found: field is immutable", true, "NotFound", false⟩

/-- The API server's rejection of a change to an immutable Secret. -/
def immutableSecretError : UpstreamError :=
  ⟨"Secret \"db\" is invalid: data: Forbidden: field is immutable when `immutable` is set",
    false, "Invalid", false⟩

/-- A not-found-class error: the target namespace `prod` is missing. -/
def namespaceProdNotFound : UpstreamError :=
  ⟨"namespaces \"prod\" not found", true, "NotFound", false⟩

/-- A not-found-class error with another text. -/
def namespaceDevNotFound : UpstreamError :=
  ⟨"namespaces \"dev\" not found", true, "NotFound", false⟩

end ssa

namespace ssa

/-- Concrete stand-ins for the functions declared outside `ssa/manager_diff.go`. -/
def sampleExternals : Externals :=
  ⟨fmtKindNamespaceName, MaskSecret, fun u => .ok (renderVal (.map u.Object)), reportDiff,
    fun a b => by
      unfold reportDiff
      by_cases h : a = b
      · simp [h]
      · simp only [h, if_false, iff_false]
        intro hc
        have hlen := congrArg String.length hc
        simp only [String.length_append] at hlen
        have h1 : "-".length + a.length + "\n+".length + b.length = "".length := hlen
        have h2 : "-".length = 1 := by decide
        have h3 : "".length = 0 := by decide
        omega⟩

/-- A manager whose store holds `stored` and whose dry-run apply answers `projection`. -/
def managerWith (stored projection : Unstructured) : ResourceManager :=
  ⟨fun _ => .ok stored, fun _ => .ok projection⟩

/-- A Deployment persisted at resourceVersion `"7"` with the given replica count. -/
def persistedDeployment (replicas : Int) : Unstructured :=
  ⟨[("apiVersion", .str "apps/v1"), ("kind", .str "Deployment"),
    ("metadata", .map [("name", .str "web"), ("namespace", .str "prod"),
      ("resourceVersion", .str "7")]),
    ("spec", .map [("replicas", .num replicas)])]⟩

/-- A ServiceAccount persisted at resourceVersion `"12"`, whose field ownership is recorded
for the given manager; it defines none of the tracked fields. -/
def serviceAccountManagedBy (manager : String) : Unstructured :=
  ⟨[("apiVersion", .str "v1"), ("kind", .str "ServiceAccount"),
    ("metadata", .map [("name", .str "runner"), ("namespace", .str "prod"),
      ("resourceVersion", .str "12"),
      ("managedFields", .seq [.map [("manager", .str manager), ("operation", .str "Apply")]])])]⟩

end ssa


namespace ssa

/-- A Secret persisted at resourceVersion `"3"` whose `data` holds the given password. -/
def persistedSecret (password : String) : Unstructured :=
  ⟨[("apiVersion", .str "v1"), ("kind", .str "Secret"),
    ("metadata", .map [("name", .str "db"), ("namespace", .str "prod"),
      ("resourceVersion", .str "3")]),
    ("data", .map [("password", .str password)])]⟩

/-- A Secret persisted at resourceVersion `"3"` whose `data` is not a map. -/
def malformedSecret : Unstructured :=
  ⟨[("apiVersion", .str "v1"), ("kind", .str "Secret"),
    ("metadata", .map [("name", .str "db"), ("namespace", .str "prod"),
      ("resourceVersion", .str "3")]),
    ("data", .str "cGFzc3dvcmQ=")]⟩

/-- A ConfigMap persisted at resourceVersion `"41"` that carries `data` and, on request,
`binaryData` as well. -/
def configMapWithData (withBinaryData : Bool) : Unstructured :=
  ⟨[("apiVersion", .str "v1"), ("kind", .str "ConfigMap"),
    ("metadata", .map [("name", .str "settings"), ("namespace", .str "apps"),
      ("resourceVersion", .str "41")]),
    ("data", .map [("mode", .str "fast")])]
    ++ (if withBinaryData then [("binaryData", .map [("blob", .str "AAEC")])] else [])⟩

/-- A field-manager ownership conflict reported by the API server. -/
def conflictError : UpstreamError :=
  ⟨"Apply failed with 1 conflict: conflict with \"kubectl\": .spec.replicas", false,
    "Conflict", true⟩

/-- A failure without a reason code, such as a transport error. -/
def transportError : UpstreamError :=
  ⟨"dial tcp 10.0.0.1:443: connect: connection refused", false, "", false⟩

/-- The stand-ins of `sampleExternals` with a `yaml.Marshal` that always fails. -/
def failingMarshalExternals : Externals :=
  { sampleExternals with Marshal := fun _ => .error (.leaf "yaml: unsupported type") }

end ssa


namespace ssa

/-- The data-bearing top-level fields of a Secret. -/
def dataBearingFields : List String := ["data", "stringData"]

/-- Two values that are equal, or are maps with the same keys in the same order (so that
they differ at most in the values stored under those keys). -/
def sameKeys (v w : Val) : Prop :=
  v = w ∨ ∃ m n, v = .map m ∧ w = .map n ∧ m.map Prod.fst = n.map Prod.fst

/-- Two field maps with the same keys in the same order that differ at most in the values
stored under the top-level fields selected by `allowed`, and there only in the values of
the map held by the field. -/
def differOnlyUnder (allowed : String → Bool) : Fields → Fields → Prop
  | [], [] => True
  | (k1, v1) :: r1, (k2, v2) :: r2 =>
    k1 = k2 ∧ (if allowed k1 = true then sameKeys v1 v2 else v1 = v2)
      ∧ differOnlyUnder allowed r1 r2
  | [], _ :: _ => False
  | _ :: _, [] => False

/-- Two objects that differ only in the values stored under their data-bearing fields:
same keys there, same everything else. -/
def differOnlyInDataValues (u w : Unstructured) : Prop :=
  differOnlyUnder (fun k => decide (k ∈ dataBearingFields)) u.Object w.Object

end ssa


namespace ssa

/-- The diff text that `sampleExternals` renders for two copies of `persistedSecret`, the
existing one masked with five stars and the projection with six. -/
def maskedSecretDiffText : String :=
  reportDiff (renderVal (.map (persistedSecret "*****").Object))
    (renderVal (.map (persistedSecret "******").Object))

end ssa


/-! ## Theorems: `runtime/acl` -/

namespace acl

theorem LabelSelectorAsSelector_ok_requirements (m : LabelMap) (sel : Selector)
    (h : LabelSelectorAsSelector m = .ok sel) : sel.requirements = m := by
  unfold LabelSelectorAsSelector at h
  split at h
  · cases h
  · cases h; rfl

theorem Matches_iff_pairsPresent (ls : LabelMap) (s : NamespaceSelector) (sel : Selector)
    (h : LabelSelectorAsSelector s.MatchLabels = .ok sel) :
    sel.Matches ls = true ↔ selectorPairsPresent ls s := by
  unfold Selector.Matches selectorPairsPresent
  rw [LabelSelectorAsSelector_ok_requirements _ _ h]
  simp [List.all_eq_true]

theorem selectorLoop_wellFormed (ls : LabelMap) (sels : List NamespaceSelector)
    (hwf : ∀ s ∈ sels, (LabelSelectorAsSelector s.MatchLabels).isOk = true) :
    (selectorLoop ls sels = some (true, none) ∧ ∃ s ∈ sels, selectorPairsPresent ls s) ∨
    (selectorLoop ls sels = none ∧ ¬ ∃ s ∈ sels, selectorPairsPresent ls s) := by
  induction sels with
  | nil => right; simp [selectorLoop]
  | cons s rest ih =>
    have hs := hwf s (List.mem_cons_self _ _)
    have hrest := ih (fun t ht => hwf t (List.mem_cons_of_mem _ ht))
    unfold selectorLoop
    cases hb : LabelSelectorAsSelector s.MatchLabels with
    | error e => rw [hb] at hs; simp [Except.isOk, Except.toBool] at hs
    | ok sel =>
      simp only
      by_cases hm : sel.Matches ls = true
      · left
        refine ⟨by simp [hm], s, List.mem_cons_self _ _, ?_⟩
        exact (Matches_iff_pairsPresent ls s sel hb).1 hm
      · have hns : ¬ selectorPairsPresent ls s :=
          fun hp => hm ((Matches_iff_pairsPresent ls s sel hb).2 hp)
        simp only [hm, if_false]
        rcases hrest with ⟨h1, t, ht, hp⟩ | ⟨h1, h2⟩
        · left; exact ⟨by simpa using h1, t, List.mem_cons_of_mem _ ht, hp⟩
        · right
          refine ⟨by simpa using h1, ?_⟩
          rintro ⟨t, ht, hp⟩
          rcases List.mem_cons.1 ht with rfl | ht
          · exact hns hp
          · exact h2 ⟨t, ht, hp⟩

/-- C3. Same-namespace reference: when the reference namespace is empty or equals the
object's namespace, `HasAccessToRef` returns `(true, nil)` and makes no call on the client;
the outcome is the same for every policy value (absent included) and every client. -/
theorem HasAccessToRef_same_namespace (client : Client) (object : Object)
    (reference : NamespacedName) (acl : Option AccessFrom)
    (h : reference.Namespace = "" ∨ object.Namespace = reference.Namespace) :
    HasAccessToRef client object reference acl = ⟨true, none, []⟩ ∧
    ∀ (client2 : Client) (acl2 : Option AccessFrom),
      HasAccessToRef client2 object reference acl2
        = HasAccessToRef client object reference acl := by
  have key : ∀ (c : Client) (a : Option AccessFrom),
      HasAccessToRef c object reference a = ⟨true, none, []⟩ := by
    intro c a
    unfold HasAccessToRef
    rw [if_pos h]
  exact ⟨key client acl, fun c a => by rw [key c a, key client acl]⟩

theorem HasAccessToRef_same_namespace_witness :
    HasAccessToRef ⟨fun _ => .error (.leaf "unreachable")⟩ ⟨"apps", "podinfo"⟩
        ⟨"apps", "repo"⟩ none = ⟨true, none, []⟩ ∧
    ∀ (client2 : Client) (acl2 : Option AccessFrom),
      HasAccessToRef client2 ⟨"apps", "podinfo"⟩ ⟨"apps", "repo"⟩ acl2
        = HasAccessToRef ⟨fun _ => .error (.leaf "unreachable")⟩ ⟨"apps", "podinfo"⟩
            ⟨"apps", "repo"⟩ none :=
  HasAccessToRef_same_namespace ⟨fun _ => .error (.leaf "unreachable")⟩ ⟨"apps", "podinfo"⟩
    ⟨"apps", "repo"⟩ none (Or.inr rfl)

/-- C4. Cross-namespace reference with an absent (nil) policy: `HasAccessToRef` returns
`false` with a non-nil error whose text is
`'<namespace>/<name>' can't be accessed due to missing ACL labels on 'accessFrom'`,
and makes no call on the client. -/
theorem HasAccessToRef_missing_acl (client : Client) (object : Object)
    (reference : NamespacedName)
    (hne : reference.Namespace ≠ "") (hcross : object.Namespace ≠ reference.Namespace) :
    HasAccessToRef client object reference none =
      ⟨false,
        some (.errorf ("'" ++ reference.Namespace ++ "/" ++ reference.Name
          ++ "' can't be accessed due to missing ACL labels on 'accessFrom'")),
        []⟩ := by
  unfold HasAccessToRef
  rw [if_neg (by rintro (h | h); exacts [hne h, hcross h])]

theorem HasAccessToRef_missing_acl_witness :
    HasAccessToRef ⟨fun _ => .ok ⟨[]⟩⟩ ⟨"apps", "podinfo"⟩ ⟨"infra", "repo"⟩ none =
      ⟨false,
        some (.errorf "'infra/repo' can't be accessed due to missing ACL labels on 'accessFrom'"),
        []⟩ :=
  HasAccessToRef_missing_acl ⟨fun _ => .ok ⟨[]⟩⟩ ⟨"apps", "podinfo"⟩ ⟨"infra", "repo"⟩
    (by decide) (by decide)

/-- C2, as stated, fails: the policy `[{"": "x"}, {"team": "a"}]` has a selector
(the second) whose pairs are all present in the requester namespace's labels
`{"team": "a"}`, yet `HasAccessToRef` returns `false`, because building the first selector
fails and the loop returns that error. -/
theorem HasAccessToRef_iff_some_selector_counterexample :
    (∃ s ∈ [(⟨[("", "x")]⟩ : NamespaceSelector), ⟨[("team", "a")]⟩],
        selectorPairsPresent [("team", "a")] s) ∧
    (HasAccessToRef ⟨fun _ => .ok ⟨[("team", "a")]⟩⟩ ⟨"apps", "podinfo"⟩ ⟨"infra", "repo"⟩
        (some ⟨[⟨[("", "x")]⟩, ⟨[("team", "a")]⟩]⟩)).allowed = false := by
  refine ⟨⟨⟨[("team", "a")]⟩, by simp, by decide⟩, by decide⟩

end acl

/-! ## Theorems: `ssa` -/

namespace ssa

theorem trackedLoop_spec (dd : Val → Val → Bool) (e d : Unstructured) (fs : List String) :
    ∀ found : Bool,
      (trackedLoop dd e d fs found = none ∧ ∃ f ∈ fs, hasFieldDrifted dd e d f = true) ∨
      (trackedLoop dd e d fs found
          = some (found || fs.any (fun f => (Fields.get? e.Object f).isSome)) ∧
        ∀ f ∈ fs, hasFieldDrifted dd e d f = false) := by
  induction fs with
  | nil => intro found; right; simp [trackedLoop]
  | cons f rest ih =>
    intro found
    unfold trackedLoop
    by_cases hf : hasFieldDrifted dd e d f = true
    · left; simp only [hf, if_true]; exact ⟨trivial, f, List.mem_cons_self _ _, hf⟩
    · simp only [hf]
      rcases ih (if (Fields.get? e.Object f).isSome = true then true else found)
        with ⟨h1, g, hg, hd⟩ | ⟨h1, h2⟩
      · left; exact ⟨by simpa using h1, g, List.mem_cons_of_mem _ hg, hd⟩
      · right
        refine ⟨?_, ?_⟩
        · simp only [Bool.false_eq_true, if_false]
          rw [h1]
          cases found <;> cases hb : (Fields.get? e.Object f).isSome <;>
            simp [List.any_cons, hb]
        · intro g hg
          rcases List.mem_cons.1 hg with rfl | hg
          · simpa using hf
          · exact h2 g hg

theorem hasFieldDrifted_eq_false_iff (dd : Val → Val → Bool) (e d : Unstructured)
    (f : String) :
    hasFieldDrifted dd e d f = false ↔
      ∀ v, Fields.get? e.Object f = some v → dd (Fields.index d.Object f) v = true := by
  unfold hasFieldDrifted
  cases h : Fields.get? e.Object f with
  | none => simp
  | some v => simp

theorem hasDrifted_eq_false_iff (dd : Val → Val → Bool) (e d : Unstructured)
    (hrv : d.GetResourceVersion ≠ "") :
    hasDrifted dd e d = false ↔
      dd (Val.ofStringMap d.GetLabels) (Val.ofStringMap e.GetLabels) = true ∧
      dd (Val.ofStringMap d.GetAnnotations) (Val.ofStringMap e.GetAnnotations) = true ∧
      (∀ f ∈ trackedFields, ∀ v, Fields.get? e.Object f = some v →
        dd (Fields.index d.Object f) v = true) ∧
      ((∀ f ∈ trackedFields, Fields.get? e.Object f = none) →
        dd (.map d.Object) (.map e.Object) = true) := by
  unfold hasDrifted
  rw [if_neg hrv]
  by_cases hl : dd (Val.ofStringMap d.GetLabels) (Val.ofStringMap e.GetLabels) = true
  case neg => simp [hl]
  by_cases ha : dd (Val.ofStringMap d.GetAnnotations) (Val.ofStringMap e.GetAnnotations) = true
  case neg => simp [hl, ha]
  simp only [hl, ha, Bool.not_true, Bool.false_eq_true, if_false, true_and]
  rcases trackedLoop_spec dd e d trackedFields false with ⟨h1, f, hf, hd⟩ | ⟨h1, h2⟩
  · rw [h1]
    simp only [Bool.true_eq_false, false_iff, not_and]
    intro hall
    have := (hasFieldDrifted_eq_false_iff dd e d f).2 (hall f hf)
    rw [hd] at this; cases this
  · rw [h1]
    have hfields : ∀ f ∈ trackedFields, ∀ v, Fields.get? e.Object f = some v →
        dd (Fields.index d.Object f) v = true :=
      fun f hf => (hasFieldDrifted_eq_false_iff dd e d f).1 (h2 f hf)
    simp only [Bool.false_or]
    by_cases hany : trackedFields.any (fun f => (Fields.get? e.Object f).isSome) = true
    · simp only [hany, Bool.not_true, Bool.false_eq_true, if_false, true_iff]
      refine ⟨hfields, fun hnone => ?_⟩
      rcases List.any_eq_true.1 hany with ⟨f, hf, hs⟩
      rw [hnone f hf] at hs; cases hs
    · have hnone : ∀ f ∈ trackedFields, Fields.get? e.Object f = none := by
        intro f hf
        cases hg : Fields.get? e.Object f with
        | none => rfl
        | some v =>
          exact absurd (List.any_eq_true.2 ⟨f, hf, by simp [hg]⟩) hany
      simp only [hany]
      by_cases hw : dd (.map d.Object) (.map e.Object) = true
      · simp only [hw, Bool.not_false, Bool.not_true, if_true, Bool.false_eq_true, if_false,
          true_iff]
        exact ⟨hfields, fun _ => trivial⟩
      · simp only [hw, Bool.not_false, if_true, Bool.true_eq_false, false_iff, not_and]
        intro _ hh
        exact absurd (hh hnone) (by simp)

/-- C1. For every comparison `dd` standing for `DeepDerivative`, every existing object and
every projection whose resourceVersion is non-empty, `hasDrifted` returns `false` if and
only if: the projection's labels are compatible with existing's; the projection's
annotations are compatible with existing's; for every tracked field that existing defines,
the projection's field is compatible with existing's; and, when existing defines no tracked
field, the whole projection object is compatible with the whole existing object. -/
theorem hasDrifted_false_iff_all_compatible (dd : Val → Val → Bool)
    (existingObject dryRunObject : Unstructured)
    (hrv : dryRunObject.GetResourceVersion ≠ "") :
    hasDrifted dd existingObject dryRunObject = false ↔
      dd (Val.ofStringMap dryRunObject.GetLabels)
          (Val.ofStringMap existingObject.GetLabels) = true ∧
      dd (Val.ofStringMap dryRunObject.GetAnnotations)
          (Val.ofStringMap existingObject.GetAnnotations) = true ∧
      (∀ field ∈ ["spec", "webhooks", "rules", "subjects", "roleRef", "subsets", "data",
            "binaryData", "stringData", "immutable"],
          ∀ v, Fields.get? existingObject.Object field = some v →
            dd (Fields.index dryRunObject.Object field) v = true) ∧
      ((∀ field ∈ ["spec", "webhooks", "rules", "subjects", "roleRef", "subsets", "data",
            "binaryData", "stringData", "immutable"],
          Fields.get? existingObject.Object field = none) →
        dd (.map dryRunObject.Object) (.map existingObject.Object) = true) :=
  hasDrifted_eq_false_iff dd existingObject dryRunObject hrv

theorem hasDrifted_false_iff_all_compatible_witness :
    hasDrifted DeepDerivative (configMapWithLabels [("env", "prod"), ("team", "x")])
        (configMapWithLabels [("env", "prod")]) = false ↔
      DeepDerivative (Val.ofStringMap (configMapWithLabels [("env", "prod")]).GetLabels)
          (Val.ofStringMap
            (configMapWithLabels [("env", "prod"), ("team", "x")]).GetLabels) = true ∧
      DeepDerivative (Val.ofStringMap (configMapWithLabels [("env", "prod")]).GetAnnotations)
          (Val.ofStringMap
            (configMapWithLabels [("env", "prod"), ("team", "x")]).GetAnnotations) = true ∧
      (∀ field ∈ ["spec", "webhooks", "rules", "subjects", "roleRef", "subsets", "data",
            "binaryData", "stringData", "immutable"],
          ∀ v, Fields.get? (configMapWithLabels [("env", "prod"), ("team", "x")]).Object field
              = some v →
            DeepDerivative (Fields.index (configMapWithLabels [("env", "prod")]).Object field) v
              = true) ∧
      ((∀ field ∈ ["spec", "webhooks", "rules", "subjects", "roleRef", "subsets", "data",
            "binaryData", "stringData", "immutable"],
          Fields.get? (configMapWithLabels [("env", "prod"), ("team", "x")]).Object field
            = none) →
        DeepDerivative (.map (configMapWithLabels [("env", "prod")]).Object)
          (.map (configMapWithLabels [("env", "prod"), ("team", "x")]).Object) = true) :=
  hasDrifted_false_iff_all_compatible DeepDerivative
    (configMapWithLabels [("env", "prod"), ("team", "x")])
    (configMapWithLabels [("env", "prod")]) (by decide)

/-- C5, as stated, fails: with existing labels `{"env":"prod"}` and projection labels
`{"env":"prod","team":"x"}` the label comparison of `hasDrifted` is not satisfied. -/
theorem labels_superset_counterexample :
    DeepDerivative
      (Val.ofStringMap (configMapWithLabels [("env", "prod"), ("team", "x")]).GetLabels)
      (Val.ofStringMap (configMapWithLabels [("env", "prod")]).GetLabels) = false := by
  decide

/-- C5, amended. With existing labels `{"env":"prod"}` and projection labels
`{"env":"prod","team":"x"}` (non-empty resourceVersion, everything else identical)
`hasDrifted` reports drift: a label the projection adds is a change. With the two label
sets exchanged (the extra label only on existing) `hasDrifted` reports no drift. -/
theorem labels_superset_drifted :
    hasDrifted DeepDerivative (configMapWithLabels [("env", "prod")])
      (configMapWithLabels [("env", "prod"), ("team", "x")]) = true ∧
    hasDrifted DeepDerivative (configMapWithLabels [("env", "prod"), ("team", "x")])
      (configMapWithLabels [("env", "prod")]) = false := by
  decide

end ssa

namespace ssa

theorem Fields.mem_of_get? (fs : Fields) (k : String) (v : Val)
    (h : Fields.get? fs k = some v) : (k, v) ∈ fs := by
  induction fs with
  | nil => simp [Fields.get?] at h
  | cons kv rest ih =>
    obtain ⟨k1, w⟩ := kv
    unfold Fields.get? at h
    by_cases hk : k1 = k
    · simp only [hk, if_true, Option.some.injEq] at h
      subst h; subst hk; exact List.mem_cons_self _ _
    · simp only [hk, if_false] at h
      exact List.mem_cons_of_mem _ (ih h)

theorem Fields.get?_of_mem_nodup (fs : Fields) (k : String) (v : Val)
    (hnd : (fs.map Prod.fst).Nodup) (hmem : (k, v) ∈ fs) : Fields.get? fs k = some v := by
  induction fs with
  | nil => cases hmem
  | cons kv rest ih =>
    obtain ⟨k1, w⟩ := kv
    simp only [List.map_cons, List.nodup_cons] at hnd
    unfold Fields.get?
    rcases List.mem_cons.1 hmem with heq | hmem
    · cases heq; simp
    · have hne : k1 ≠ k := by
        rintro rfl
        exact hnd.1 (List.mem_map.2 ⟨(k1, v), hmem, rfl⟩)
      simp only [hne, if_false]
      exact ih hnd.2 hmem

theorem Val.WF.fields_mem (fs : List (String × Val)) (h : Val.WF.fields fs = true) :
    ∀ kv ∈ fs, Val.WF kv.2 = true := by
  induction fs with
  | nil => intro kv hkv; cases hkv
  | cons kv rest ih =>
    obtain ⟨k1, w⟩ := kv
    simp only [Val.WF.fields, Bool.and_eq_true] at h
    intro kv2 hkv2
    rcases List.mem_cons.1 hkv2 with rfl | hkv2
    · exact h.1
    · exact ih h.2 kv2 hkv2

mutual
theorem DeepDerivative_refl : ∀ v : Val, Val.WF v = true → DeepDerivative v v = true
  | .null, _ => by simp [DeepDerivative]
  | .bool _, _ => by simp [DeepDerivative]
  | .num _, _ => by simp [DeepDerivative]
  | .str _, _ => by simp [DeepDerivative]
  | .seq xs, h => by
    simp only [Val.WF] at h
    simp only [DeepDerivative]
    exact DeepDerivative_seq_refl xs h
  | .map fs, h => by
    simp only [Val.WF, Bool.and_eq_true, decide_eq_true_eq] at h
    simp only [DeepDerivative]
    exact DeepDerivative_fields_sub fs fs h.2
      (fun kv hkv => Fields.get?_of_mem_nodup fs kv.1 kv.2 h.1 hkv)
theorem DeepDerivative_seq_refl :
    ∀ xs : List Val, Val.WF.seq xs = true → DeepDerivative.seq xs xs = true
  | [], _ => by simp [DeepDerivative.seq]
  | x :: xs, h => by
    simp only [Val.WF.seq, Bool.and_eq_true] at h
    simp only [DeepDerivative.seq, Bool.and_eq_true]
    exact ⟨DeepDerivative_refl x h.1, DeepDerivative_seq_refl xs h.2⟩
theorem DeepDerivative_fields_sub :
    ∀ (fs gs : List (String × Val)), Val.WF.fields fs = true →
      (∀ kv ∈ fs, Fields.get? gs kv.1 = some kv.2) → DeepDerivative.fields fs gs = true
  | [], _, _, _ => by simp [DeepDerivative.fields]
  | (k, v) :: rest, gs, h, hsub => by
    simp only [Val.WF.fields, Bool.and_eq_true] at h
    have hk : Fields.get? gs k = some v := hsub (k, v) (List.mem_cons_self _ _)
    simp only [DeepDerivative.fields, hk, Bool.and_eq_true]
    exact ⟨DeepDerivative_refl v h.1,
      DeepDerivative_fields_sub rest gs h.2 (fun kv hkv => hsub kv (List.mem_cons_of_mem _ hkv))⟩
end

end ssa

namespace ssa

theorem Val.WF_of_get? (fs : Fields) (k : String) (v : Val) (h : Val.WF (.map fs) = true)
    (hg : Fields.get? fs k = some v) : Val.WF v = true := by
  simp only [Val.WF, Bool.and_eq_true] at h
  exact Val.WF.fields_mem fs h.2 (k, v) (Fields.mem_of_get? fs k v hg)

theorem Val.WF_NestedFieldNoCopy (path : List String) :
    ∀ (v w : Val), Val.WF v = true → NestedFieldNoCopy v path = some w → Val.WF w = true := by
  induction path with
  | nil => intro v w hv h; simp only [NestedFieldNoCopy, Option.some.injEq] at h; exact h ▸ hv
  | cons field rest ih =>
    intro v w hv h
    cases v with
    | map m =>
      simp only [NestedFieldNoCopy] at h
      cases hg : Fields.get? m field with
      | none => simp [hg] at h
      | some u =>
        simp only [hg] at h
        exact ih u w (Val.WF_of_get? m field u hv hg) h
    | null => simp [NestedFieldNoCopy] at h
    | bool b => simp [NestedFieldNoCopy] at h
    | num n => simp [NestedFieldNoCopy] at h
    | str s => simp [NestedFieldNoCopy] at h
    | seq xs => simp [NestedFieldNoCopy] at h

theorem toStringMap_keys :
    ∀ (m : Fields) (sm : List (String × String)), toStringMap m = some sm →
      sm.map Prod.fst = m.map Prod.fst
  | [], sm, h => by
    simp only [toStringMap, Option.some.injEq] at h
    subst h; rfl
  | (k, .str s) :: rest, sm, h => by
    simp only [toStringMap] at h
    cases hr : toStringMap rest with
    | none => simp [hr] at h
    | some sm2 =>
      simp only [hr, Option.some.injEq] at h
      subst h
      simp [toStringMap_keys rest sm2 hr]
  | (_, .null) :: _, _, h => by simp [toStringMap] at h
  | (_, .bool _) :: _, _, h => by simp [toStringMap] at h
  | (_, .num _) :: _, _, h => by simp [toStringMap] at h
  | (_, .seq _) :: _, _, h => by simp [toStringMap] at h
  | (_, .map _) :: _, _, h => by simp [toStringMap] at h

theorem Val.WF.fields_ofStringMap (sm : List (String × String)) :
    Val.WF.fields (sm.map (fun kv => (kv.1, Val.str kv.2))) = true := by
  induction sm with
  | nil => simp [Val.WF.fields]
  | cons kv rest ih => simp [Val.WF.fields, Val.WF, ih]

theorem Val.WF_ofStringMap (sm : List (String × String)) (h : (sm.map Prod.fst).Nodup) :
    Val.WF (Val.ofStringMap sm) = true := by
  unfold Val.ofStringMap
  simp only [Val.WF, Bool.and_eq_true, decide_eq_true_eq, List.map_map]
  refine ⟨?_, Val.WF.fields_ofStringMap sm⟩
  have : (Prod.fst ∘ fun kv : String × String => (kv.1, Val.str kv.2)) = Prod.fst := by
    funext kv; rfl
  rw [this]; exact h

theorem Val.WF_NestedStringMap (obj : Fields) (path : List String)
    (h : Val.WF (.map obj) = true) :
    Val.WF (Val.ofStringMap (NestedStringMap obj path)) = true := by
  unfold NestedStringMap
  cases hn : NestedFieldNoCopy (.map obj) path with
  | none => exact Val.WF_ofStringMap [] List.nodup_nil
  | some w =>
    have hw := Val.WF_NestedFieldNoCopy path (.map obj) w h hn
    cases w with
    | map m =>
      simp only
      cases hs : toStringMap m with
      | none => exact Val.WF_ofStringMap [] List.nodup_nil
      | some sm =>
        simp only
        apply Val.WF_ofStringMap
        rw [toStringMap_keys m sm hs]
        simp only [Val.WF, Bool.and_eq_true, decide_eq_true_eq] at hw
        exact hw.1
    | null => exact Val.WF_ofStringMap [] List.nodup_nil
    | bool b => exact Val.WF_ofStringMap [] List.nodup_nil
    | num n => exact Val.WF_ofStringMap [] List.nodup_nil
    | str s => exact Val.WF_ofStringMap [] List.nodup_nil
    | seq xs => exact Val.WF_ofStringMap [] List.nodup_nil

theorem Fields.index_of_get? (fs : Fields) (k : String) (v : Val)
    (h : Fields.get? fs k = some v) : Fields.index fs k = v := by
  simp [Fields.index, h]

/-- No drift is reported when the projection agrees with a well-formed existing object on
labels, annotations and every tracked field existing defines, and on the whole object when
existing defines no tracked field. -/
theorem hasDrifted_false_of_agree (e d : Unstructured)
    (hrv : d.GetResourceVersion ≠ "") (hwf : e.WF = true)
    (hl : d.GetLabels = e.GetLabels) (ha : d.GetAnnotations = e.GetAnnotations)
    (hf : ∀ f ∈ trackedFields, ∀ v, Fields.get? e.Object f = some v →
      Fields.get? d.Object f = some v)
    (hw : (∀ f ∈ trackedFields, Fields.get? e.Object f = none) → d.Object = e.Object) :
    hasDrifted DeepDerivative e d = false := by
  rw [hasDrifted_eq_false_iff DeepDerivative e d hrv]
  unfold Unstructured.WF at hwf
  refine ⟨?_, ?_, ?_, ?_⟩
  · rw [hl]; exact DeepDerivative_refl _ (Val.WF_NestedStringMap _ _ hwf)
  · rw [ha]; exact DeepDerivative_refl _ (Val.WF_NestedStringMap _ _ hwf)
  · intro f hfm v hv
    rw [Fields.index_of_get? _ _ _ (hf f hfm v hv)]
    exact DeepDerivative_refl v (Val.WF_of_get? _ f v hwf hv)
  · intro hnone
    rw [hw hnone]
    exact DeepDerivative_refl _ hwf

theorem Fields.get?_set (m : Fields) (k k2 : String) (v : Val) :
    Fields.get? (Fields.set m k v) k2 =
      if k2 = k then (match Fields.get? m k with | some _ => some v | none => none)
      else Fields.get? m k2 := by
  induction m with
  | nil => simp [Fields.set, Fields.get?]
  | cons kv rest ih =>
    obtain ⟨k1, w⟩ := kv
    unfold Fields.set
    by_cases h1 : k1 = k
    · subst h1
      by_cases h2 : k2 = k1
      · subst h2; simp [Fields.get?]
      · have h3 : ¬ k1 = k2 := fun h => h2 h.symm
        simp [Fields.get?, h2, h3]
    · simp only [h1, if_false]
      by_cases h2 : k2 = k
      · subst h2
        simp only [Fields.get?, h1, if_false, ih, if_true]
      · by_cases h3 : k1 = k2
        · simp [Fields.get?, h3, h2]
        · simp only [Fields.get?, h3, if_false, ih, h2]

theorem Fields.get?_delete_ne (m : Fields) (k k2 : String) (h : k2 ≠ k) :
    Fields.get? (Fields.delete m k) k2 = Fields.get? m k2 := by
  induction m with
  | nil => simp [Fields.delete, Fields.get?]
  | cons kv rest ih =>
    obtain ⟨k1, w⟩ := kv
    unfold Fields.delete at ih ⊢
    by_cases h1 : k1 = k
    · subst h1
      have h3 : ¬ k1 = k2 := fun h' => h h'.symm
      simp [List.filter_cons, Fields.get?, h3, ih]
    · simp [List.filter_cons, h1, Fields.get?, ih]

end ssa

namespace ssa

theorem RemoveNestedField_managedFields (obj : Fields) :
    RemoveNestedField obj ["metadata", "managedFields"] =
      match Fields.get? obj "metadata" with
      | some (.map x) => Fields.set obj "metadata" (.map (Fields.delete x "managedFields"))
      | _ => obj := by
  simp only [RemoveNestedField]

theorem get?_removeManagedFields (u : Unstructured) (f : String) (hf : f ≠ "metadata") :
    Fields.get? (removeManagedFields u).Object f = Fields.get? u.Object f := by
  unfold removeManagedFields
  simp only [RemoveNestedField_managedFields]
  split
  · rw [Fields.get?_set]; simp [hf]
  · rfl

theorem NestedFieldNoCopy_removeManagedFields (u : Unstructured) (p : String)
    (rest : List String) (hp : p ≠ "managedFields") :
    NestedFieldNoCopy (.map (removeManagedFields u).Object) ("metadata" :: p :: rest) =
      NestedFieldNoCopy (.map u.Object) ("metadata" :: p :: rest) := by
  unfold removeManagedFields
  simp only [RemoveNestedField_managedFields]
  split
  · rename_i x hx
    simp only [NestedFieldNoCopy, Fields.get?_set, if_true, hx,
      Fields.get?_delete_ne x "managedFields" p hp]
  · rfl

theorem GetLabels_removeManagedFields (u : Unstructured) :
    (removeManagedFields u).GetLabels = u.GetLabels := by
  unfold Unstructured.GetLabels NestedStringMap
  rw [NestedFieldNoCopy_removeManagedFields u "labels" [] (by decide)]

theorem GetAnnotations_removeManagedFields (u : Unstructured) :
    (removeManagedFields u).GetAnnotations = u.GetAnnotations := by
  unfold Unstructured.GetAnnotations NestedStringMap
  rw [NestedFieldNoCopy_removeManagedFields u "annotations" [] (by decide)]

theorem GetKind_removeManagedFields (u : Unstructured) :
    (removeManagedFields u).GetKind = u.GetKind := by
  unfold Unstructured.GetKind NestedString
  simp only [NestedFieldNoCopy]
  rw [get?_removeManagedFields u "kind" (by decide)]

theorem trackedFields_ne_metadata : ∀ f ∈ trackedFields, f ≠ "metadata" := by decide

/-- Drift found on an existing object that defines a tracked field survives the removal of
`metadata.managedFields` from both objects. -/
theorem removeManagedFields_ne_of_drifted (e d : Unstructured)
    (hrv : d.GetResourceVersion ≠ "") (hwf : e.WF = true)
    (htracked : ∃ f ∈ trackedFields, (Fields.get? e.Object f).isSome = true)
    (hdrift : hasDrifted DeepDerivative e d = true) :
    (removeManagedFields e).Object ≠ (removeManagedFields d).Object := by
  intro heq
  have hu : removeManagedFields e = removeManagedFields d := by
    cases he : removeManagedFields e; cases hd : removeManagedFields d
    rw [he, hd] at heq; simp only at heq; rw [heq]
  have hno : hasDrifted DeepDerivative e d = false := by
    apply hasDrifted_false_of_agree e d hrv hwf
    · rw [← GetLabels_removeManagedFields d, ← hu, GetLabels_removeManagedFields]
    · rw [← GetAnnotations_removeManagedFields d, ← hu, GetAnnotations_removeManagedFields]
    · intro f hf v hv
      have hne := trackedFields_ne_metadata f hf
      rw [← get?_removeManagedFields d f hne, ← hu, get?_removeManagedFields e f hne]
      exact hv
    · intro hnone
      obtain ⟨f, hf, hs⟩ := htracked
      rw [hnone f hf] at hs; cases hs
  rw [hno] at hdrift; cases hdrift

/-- C6, as stated, fails: when the existing object and the projection are both a Deployment
that carries no resourceVersion, `Diff` classifies it Created, not Unchanged. -/
theorem Diff_same_object_counterexample :
    (managerWith deploymentObject deploymentObject).existingObject deploymentObject
      = deploymentObject ∧
    (managerWith deploymentObject deploymentObject).dryRunApply deploymentObject
      = .ok deploymentObject ∧
    actionOf (Diff DeepDerivative sampleExternals
      (managerWith deploymentObject deploymentObject) deploymentObject)
      = some .CreatedAction := by
  refine ⟨rfl, rfl, by decide⟩

/-- C6, amended. For any well-formed object X (no map holds a key twice) whose
resourceVersion is non-empty, when the existing object and the dry-run projection are both
X, `Diff` yields the ChangeSetEntry for X with Action Unchanged and empty diff text. -/
theorem Diff_same_object_unchanged (x : Externals) (m : ResourceManager)
    (object X : Unstructured)
    (hexisting : m.existingObject object = X) (hdry : m.dryRunApply object = .ok X)
    (hrv : X.GetResourceVersion ≠ "") (hwf : X.WF = true) :
    Diff DeepDerivative x m object = .ok ⟨X, .UnchangedAction, ""⟩ := by
  have hno : hasDrifted DeepDerivative X X = false :=
    hasDrifted_false_of_agree X X hrv hwf rfl rfl (fun _ _ _ hv => hv) (fun _ => rfl)
  unfold Diff
  simp only [hdry, hexisting, hrv, hno, if_false, Bool.false_eq_true, changeSetEntry]

theorem Diff_same_object_unchanged_witness :
    Diff DeepDerivative sampleExternals
      (managerWith (persistedDeployment 3) (persistedDeployment 3)) deploymentObject
      = .ok ⟨persistedDeployment 3, .UnchangedAction, ""⟩ :=
  Diff_same_object_unchanged sampleExternals
    (managerWith (persistedDeployment 3) (persistedDeployment 3)) deploymentObject
    (persistedDeployment 3) rfl rfl (by decide) (by decide)

/-- Where existing defines a tracked field, drift survives the removal of
`metadata.managedFields`: for every well-formed existing object that defines at least one
tracked field and every projection of a kind other than Secret, with non-empty
resourceVersion, for which `hasDrifted` is true, the two stripped objects differ and the
Configured entry returned by `Diff` has non-empty diff text, provided the serialiser tells
the two stripped objects apart. -/
theorem Diff_configured_nonempty (x : Externals) (m : ResourceManager)
    (object dryRunObject : Unstructured)
    (hdry : m.dryRunApply object = .ok dryRunObject)
    (hrv : dryRunObject.GetResourceVersion ≠ "")
    (hdrift : hasDrifted DeepDerivative (m.existingObject object) dryRunObject = true)
    (hwf : (m.existingObject object).WF = true)
    (htracked : ∃ f ∈ trackedFields,
      (Fields.get? (m.existingObject object).Object f).isSome = true)
    (hkind : dryRunObject.GetKind ≠ "Secret")
    (hyaml : x.marshalString (removeManagedFields (m.existingObject object))
        = x.marshalString (removeManagedFields dryRunObject) →
      (removeManagedFields (m.existingObject object)).Object
        = (removeManagedFields dryRunObject).Object) :
    (removeManagedFields (m.existingObject object)).Object
      ≠ (removeManagedFields dryRunObject).Object ∧
    ∃ diff, diff ≠ "" ∧
      Diff DeepDerivative x m object = .ok ⟨object, .ConfiguredAction, diff⟩ := by
  have hne := removeManagedFields_ne_of_drifted (m.existingObject object) dryRunObject hrv hwf
    htracked hdrift
  refine ⟨hne, x.cmpDiff (x.marshalString (removeManagedFields (m.existingObject object)))
    (x.marshalString (removeManagedFields dryRunObject)), ?_, ?_⟩
  · intro hempty
    exact hne (hyaml ((x.cmpDiff_empty_iff _ _).1 hempty))
  · unfold Diff
    simp only [hdry, hrv, hdrift, if_false, if_true, GetKind_removeManagedFields, hkind,
      changeSetEntry]

theorem Diff_configured_nonempty_witness :
    (removeManagedFields
        ((managerWith (persistedDeployment 3) (persistedDeployment 5)).existingObject
          deploymentObject)).Object
      ≠ (removeManagedFields (persistedDeployment 5)).Object ∧
    ∃ diff, diff ≠ "" ∧
      Diff DeepDerivative sampleExternals
        (managerWith (persistedDeployment 3) (persistedDeployment 5)) deploymentObject
        = .ok ⟨deploymentObject, .ConfiguredAction, diff⟩ :=
  Diff_configured_nonempty sampleExternals
    (managerWith (persistedDeployment 3) (persistedDeployment 5)) deploymentObject
    (persistedDeployment 5) rfl (by decide) (by decide) (by decide)
    ⟨"spec", by decide, by decide⟩ (by decide)
    (fun h => absurd h (by decide))

end ssa

namespace ssa

theorem Contains_append_right (s t sub : String) (h : Contains t sub) :
    Contains (s ++ t) sub := by
  unfold Contains at *
  rw [String.data_append]
  exact h.trans (List.suffix_append s.data t.data).isInfix

theorem Contains_trans (s t u : String) (h1 : Contains s t) (h2 : Contains t u) :
    Contains s u := by
  unfold Contains at *
  exact h2.trans h1

/-- C8, as stated, fails: for a Secret and an upstream error that is not not-found-class,
unwrapping the error returned by `validationError` does not give back the upstream
error. -/
theorem validationError_wraps_counterexample :
    (validationError fmtKindNamespaceName secretObject invalidSecretError).Unwrap
      ≠ some (.upstream invalidSecretError) := by
  decide

/-- C8, amended. The error returned by `validationError` wraps the upstream error (which
`errors.Unwrap` gives back) exactly in the not-found branch and, for objects that are not
Secrets, in the field-manager-conflict and generic branches; in the Secret branch the
returned error does not wrap the upstream error. -/
theorem validationError_wraps_iff (FmtUnstructured : Unstructured → String)
    (object : Unstructured) (err : UpstreamError) :
    (validationError FmtUnstructured object err).Unwrap = some (.upstream err) ↔
      (err.IsNotFound = true ∨ object.GetKind ≠ "Secret") := by
  unfold validationError
  by_cases hnf : err.IsNotFound = true
  · simp [hnf, GoError.Unwrap]
  · by_cases hk : object.GetKind = "Secret"
    · simp [hnf, hk, GoError.Unwrap]
    · simp [hnf, hk, GoError.Unwrap]

/-- C9, as stated, fails: for a Secret and a not-found-class upstream error whose text
contains "field is immutable", the returned message does not contain
"secret is immutable". -/
theorem validationError_secret_immutable_counterexample :
    secretObject.GetKind = "Secret" ∧
    Contains notFoundImmutableError.Error "field is immutable" ∧
    ¬ Contains (validationError fmtKindNamespaceName secretObject notFoundImmutableError).Error
        "secret is immutable" := by
  decide

/-- C9, amended. For every Secret-kind object and every upstream error that is not
not-found-class and whose text contains "field is immutable", the message of the error
returned by `validationError` contains "secret is immutable". -/
theorem validationError_secret_immutable (FmtUnstructured : Unstructured → String)
    (object : Unstructured) (err : UpstreamError)
    (hkind : object.GetKind = "Secret") (hnf : err.IsNotFound = false)
    (htext : Contains err.Error "field is immutable") :
    Contains (validationError FmtUnstructured object err).Error "secret is immutable" := by
  have himm : Contains err.Error "immutable" :=
    Contains_trans _ _ _ htext (by decide)
  unfold validationError
  simp only [hnf, hkind, himm, if_true, Bool.false_eq_true, if_false, GoError.Error]
  exact Contains_append_right _ _ _ (by decide)

theorem validationError_secret_immutable_witness :
    Contains (validationError fmtKindNamespaceName secretObject immutableSecretError).Error
      "secret is immutable" :=
  validationError_secret_immutable fmtKindNamespaceName secretObject immutableSecretError
    (by decide) rfl (by decide)

/-- C10, as stated, fails: for a Secret, two not-found-class upstream errors with the same
reason code, neither mentioning "immutable", yield different messages, each carrying the
upstream text. -/
theorem validationError_secret_same_message_counterexample :
    secretObject.GetKind = "Secret" ∧
    namespaceProdNotFound.ReasonForError = namespaceDevNotFound.ReasonForError ∧
    (Contains namespaceProdNotFound.Error "immutable"
      ↔ Contains namespaceDevNotFound.Error "immutable") ∧
    (validationError fmtKindNamespaceName secretObject namespaceProdNotFound).Error
      ≠ (validationError fmtKindNamespaceName secretObject namespaceDevNotFound).Error := by
  decide

/-- C10, amended. For every Secret-kind object, any two upstream errors that are not
not-found-class, have the same reason code and agree on whether their text mentions
"immutable" yield the same error from `validationError`, with exactly the same message,
and that error wraps nothing: the message is built from the object, the reason code and a
fixed text only. -/
theorem validationError_secret_same_message (FmtUnstructured : Unstructured → String)
    (object : Unstructured) (err1 err2 : UpstreamError)
    (hkind : object.GetKind = "Secret")
    (hnf1 : err1.IsNotFound = false) (hnf2 : err2.IsNotFound = false)
    (hreason : err1.ReasonForError = err2.ReasonForError)
    (himm : Contains err1.Error "immutable" ↔ Contains err2.Error "immutable") :
    (validationError FmtUnstructured object err1).Error
        = (validationError FmtUnstructured object err2).Error ∧
    validationError FmtUnstructured object err1 = validationError FmtUnstructured object err2 ∧
    (validationError FmtUnstructured object err1).Unwrap = none := by
  unfold validationError
  simp only [hnf1, hnf2, hkind, hreason, Bool.false_eq_true, if_false, if_true, GoError.Error,
    GoError.Unwrap]
  by_cases h2 : Contains err2.Error "immutable"
  · simp [himm.2 h2, h2]
  · simp [mt himm.1 h2, h2]

theorem validationError_secret_same_message_witness :
    (validationError fmtKindNamespaceName secretObject invalidSecretError).Error
        = (validationError fmtKindNamespaceName secretObject
            ⟨"Secret \"db\" is invalid: data[token]: Invalid value: \"s3cr3t\"", false,
              "Invalid", false⟩).Error ∧
    validationError fmtKindNamespaceName secretObject invalidSecretError
        = validationError fmtKindNamespaceName secretObject
            ⟨"Secret \"db\" is invalid: data[token]: Invalid value: \"s3cr3t\"", false,
              "Invalid", false⟩ ∧
    (validationError fmtKindNamespaceName secretObject invalidSecretError).Unwrap = none :=
  validationError_secret_same_message fmtKindNamespaceName secretObject invalidSecretError
    ⟨"Secret \"db\" is invalid: data[token]: Invalid value: \"s3cr3t\"", false, "Invalid",
      false⟩
    (by decide) rfl rfl rfl (by decide)

end ssa

/-! ## Theorems: `runtime/acl`, continued -/

namespace acl

/-- C16. Cross-namespace reference with a present policy: when the client's read of the
object's namespace fails, `HasAccessToRef` returns `false` together with exactly that
lookup error, after that single read; the outcome is the same for every policy, so no
selector is evaluated. -/
theorem HasAccessToRef_lookup_failure (client : Client) (object : Object)
    (reference : NamespacedName) (acl : AccessFrom) (err : GoError)
    (hne : reference.Namespace ≠ "") (hcross : object.Namespace ≠ reference.Namespace)
    (hget : client.Get object.Namespace = .error err) :
    HasAccessToRef client object reference (some acl)
      = ⟨false, some err, [.get object.Namespace]⟩ ∧
    ∀ acl2 : AccessFrom, HasAccessToRef client object reference (some acl2)
      = HasAccessToRef client object reference (some acl) := by
  have key : ∀ a : AccessFrom, HasAccessToRef client object reference (some a)
      = ⟨false, some err, [.get object.Namespace]⟩ := by
    intro a
    unfold HasAccessToRef
    rw [if_neg (by rintro (h | h); exacts [hne h, hcross h])]
    simp only [hget]
  exact ⟨key acl, fun a => by rw [key a, key acl]⟩

theorem HasAccessToRef_lookup_failure_witness :
    HasAccessToRef ⟨fun _ => .error (.leaf "context deadline exceeded")⟩ ⟨"apps", "podinfo"⟩
        ⟨"infra", "repo"⟩ (some ⟨[⟨[("team", "a")]⟩]⟩)
      = ⟨false, some (.leaf "context deadline exceeded"), [.get "apps"]⟩ ∧
    ∀ acl2 : AccessFrom,
      HasAccessToRef ⟨fun _ => .error (.leaf "context deadline exceeded")⟩
          ⟨"apps", "podinfo"⟩ ⟨"infra", "repo"⟩ (some acl2)
        = HasAccessToRef ⟨fun _ => .error (.leaf "context deadline exceeded")⟩
            ⟨"apps", "podinfo"⟩ ⟨"infra", "repo"⟩ (some ⟨[⟨[("team", "a")]⟩]⟩) :=
  HasAccessToRef_lookup_failure ⟨fun _ => .error (.leaf "context deadline exceeded")⟩
    ⟨"apps", "podinfo"⟩ ⟨"infra", "repo"⟩ ⟨[⟨[("team", "a")]⟩]⟩
    (.leaf "context deadline exceeded") (by decide) (by decide) rfl

/-- C17, as stated, fails: for a cross-namespace reference (`infra` is non-empty and differs
from `apps`) with an absent policy, `HasAccessToRef` makes no read at all. -/
theorem HasAccessToRef_one_read_counterexample :
    ("infra" : String) ≠ "" ∧ ("apps" : String) ≠ "infra" ∧
    (HasAccessToRef ⟨fun _ => .ok ⟨[("team", "a")]⟩⟩ ⟨"apps", "podinfo"⟩ ⟨"infra", "repo"⟩
        none).calls = [] := by
  decide

/-- C17, amended. `HasAccessToRef` performs exactly one read of namespace metadata through
the client, of the object's namespace, when the reference namespace is non-empty and
differs from the object's namespace and the policy is present; it performs no read
otherwise (same namespace, or absent policy); it performs no write in any case. -/
theorem HasAccessToRef_calls (client : Client) (object : Object)
    (reference : NamespacedName) (acl : Option AccessFrom) :
    (HasAccessToRef client object reference acl).calls =
        (if reference.Namespace ≠ "" ∧ object.Namespace ≠ reference.Namespace
            ∧ acl.isSome = true
          then [ClientCall.get object.Namespace] else []) ∧
    ∀ name : String,
      ClientCall.write name ∉ (HasAccessToRef client object reference acl).calls := by
  have hcalls : (HasAccessToRef client object reference acl).calls =
      (if reference.Namespace ≠ "" ∧ object.Namespace ≠ reference.Namespace
          ∧ acl.isSome = true
        then [ClientCall.get object.Namespace] else []) := by
    unfold HasAccessToRef
    by_cases h : reference.Namespace = "" ∨ object.Namespace = reference.Namespace
    · rw [if_pos h]
      rw [if_neg (by rintro ⟨h1, h2, _⟩; rcases h with h | h; exacts [h1 h, h2 h])]
    · rw [if_neg h]
      have h1 : reference.Namespace ≠ "" := fun hh => h (Or.inl hh)
      have h2 : object.Namespace ≠ reference.Namespace := fun hh => h (Or.inr hh)
      cases acl with
      | none => simp
      | some a =>
        rw [if_pos ⟨h1, h2, rfl⟩]
        simp only
        cases client.Get object.Namespace with
        | error e => rfl
        | ok ns =>
          simp only
          cases selectorLoop ns.Labels a.NamespaceSelectors with
          | none => rfl
          | some r => rfl
  refine ⟨hcalls, fun name hmem => ?_⟩
  rw [hcalls] at hmem
  split at hmem
  · simp at hmem
  · simp at hmem

end acl

/-! ## Theorems: `ssa`, continued -/

namespace ssa

/-- C13. For every comparison standing for `DeepDerivative`, every existing object and
every projection whose resourceVersion is empty, `hasDrifted` returns `true`, and `Diff`,
after a successful dry-run apply answering that projection, returns the ChangeSetEntry of
the projection with Action Created (so neither Configured nor Unchanged) and no diff
text. -/
theorem empty_resourceVersion_created (dd : Val → Val → Bool) (x : Externals)
    (m : ResourceManager) (object existingObject dryRunObject : Unstructured)
    (hrv : dryRunObject.GetResourceVersion = "")
    (hdry : m.dryRunApply object = .ok dryRunObject) :
    hasDrifted dd existingObject dryRunObject = true ∧
    Diff dd x m object = .ok ⟨dryRunObject, .CreatedAction, ""⟩ ∧
    actionOf (Diff dd x m object) ≠ some .ConfiguredAction ∧
    actionOf (Diff dd x m object) ≠ some .UnchangedAction := by
  have hdiff : Diff dd x m object = .ok ⟨dryRunObject, .CreatedAction, ""⟩ := by
    unfold Diff
    simp only [hdry, hrv, if_true, changeSetEntry]
  refine ⟨?_, hdiff, ?_, ?_⟩
  · unfold hasDrifted; rw [if_pos hrv]
  · rw [hdiff]; simp [actionOf]
  · rw [hdiff]; simp [actionOf]

theorem empty_resourceVersion_created_witness :
    hasDrifted DeepDerivative (persistedDeployment 3) deploymentObject = true ∧
    Diff DeepDerivative sampleExternals (managerWith (persistedDeployment 3) deploymentObject)
        deploymentObject = .ok ⟨deploymentObject, .CreatedAction, ""⟩ ∧
    actionOf (Diff DeepDerivative sampleExternals
        (managerWith (persistedDeployment 3) deploymentObject) deploymentObject)
      ≠ some .ConfiguredAction ∧
    actionOf (Diff DeepDerivative sampleExternals
        (managerWith (persistedDeployment 3) deploymentObject) deploymentObject)
      ≠ some .UnchangedAction :=
  empty_resourceVersion_created DeepDerivative sampleExternals
    (managerWith (persistedDeployment 3) deploymentObject) deploymentObject
    (persistedDeployment 3) deploymentObject (by decide) rfl

/-- C14. The not-found check comes first: for every object of any kind (Secret included)
and every not-found-class upstream error, `validationError` returns an error whose message
is exactly `<object> namespace not specified, error: <err>`, with `<object>` the text of
`FmtUnstructured(object)` and `<err>` the upstream error text. -/
theorem validationError_not_found_message (FmtUnstructured : Unstructured → String)
    (object : Unstructured) (err : UpstreamError) (hnf : err.IsNotFound = true) :
    (validationError FmtUnstructured object err).Error
      = FmtUnstructured object ++ " namespace not specified, error: " ++ err.Error := by
  unfold validationError
  simp only [hnf, if_true, GoError.Error]

theorem validationError_not_found_message_witness :
    (validationError fmtKindNamespaceName secretObject namespaceProdNotFound).Error
      = fmtKindNamespaceName secretObject ++ " namespace not specified, error: "
        ++ namespaceProdNotFound.Error :=
  validationError_not_found_message fmtKindNamespaceName secretObject namespaceProdNotFound rfl

/-- C15. For every object that is not a Secret and every upstream error that is not
not-found-class, with `reason` the field-manager-conflict cause type name when the error
carries such a cause and the upstream reason code otherwise, `validationError` returns the
message `<object> dry-run failed, reason: <reason>, error: <err>`; when `reason` is the
empty string the reason clause is left out and the message is exactly
`<object> dry-run failed, error: <err>`. -/
theorem validationError_generic_message (FmtUnstructured : Unstructured → String)
    (object : Unstructured) (err : UpstreamError)
    (hkind : object.GetKind ≠ "Secret") (hnf : err.IsNotFound = false) :
    (validationError FmtUnstructured object err).Error =
      (if (if err.FieldManagerConflict = true then CauseTypeFieldManagerConflict
            else err.ReasonForError) = ""
        then FmtUnstructured object ++ " dry-run failed, error: " ++ err.Error
        else FmtUnstructured object ++ " dry-run failed, reason: "
          ++ (if err.FieldManagerConflict = true then CauseTypeFieldManagerConflict
              else err.ReasonForError)
          ++ ", error: " ++ err.Error) := by
  have e1 : " dry-run failed" ++ ", error: " = " dry-run failed, error: " := by decide
  have e2 : " dry-run failed" ++ ", reason: " = " dry-run failed, reason: " := by decide
  unfold validationError
  simp only [hnf, hkind, Bool.false_eq_true, if_false, GoError.Error]
  by_cases hr : (if err.FieldManagerConflict = true then CauseTypeFieldManagerConflict
      else err.ReasonForError) = ""
  · simp only [hr, ne_eq, not_true_eq_false, if_false, if_true, String.append_empty]
    rw [String.append_assoc (FmtUnstructured object), e1]
  · simp only [hr, ne_eq, not_false_eq_true, if_true, if_false]
    rw [← String.append_assoc (FmtUnstructured object ++ " dry-run failed"),
      String.append_assoc (FmtUnstructured object), e2]

theorem validationError_generic_message_witness :
    (validationError fmtKindNamespaceName deploymentObject conflictError).Error =
      (if (if conflictError.FieldManagerConflict = true then CauseTypeFieldManagerConflict
            else conflictError.ReasonForError) = ""
        then fmtKindNamespaceName deploymentObject ++ " dry-run failed, error: "
          ++ conflictError.Error
        else fmtKindNamespaceName deploymentObject ++ " dry-run failed, reason: "
          ++ (if conflictError.FieldManagerConflict = true then CauseTypeFieldManagerConflict
              else conflictError.ReasonForError)
          ++ ", error: " ++ conflictError.Error) :=
  validationError_generic_message fmtKindNamespaceName deploymentObject conflictError
    (by decide) rfl

/-- C19. A tracked field that only the projection defines is not detected as drift when
existing defines some other tracked field: for every comparison standing for
`DeepDerivative`, every existing object that defines at least one tracked field and every
projection (non-empty resourceVersion) that is compatible on labels, on annotations and on
every tracked field existing defines, `hasDrifted` returns `false`, even when the
projection carries a tracked field `extra` that existing lacks. -/
theorem hasDrifted_ignores_projection_only_field (dd : Val → Val → Bool)
    (existingObject dryRunObject : Unstructured) (extra : String)
    (hrv : dryRunObject.GetResourceVersion ≠ "")
    (hdefined : ∃ f ∈ trackedFields, (Fields.get? existingObject.Object f).isSome = true)
    (hlabels : dd (Val.ofStringMap dryRunObject.GetLabels)
      (Val.ofStringMap existingObject.GetLabels) = true)
    (hannotations : dd (Val.ofStringMap dryRunObject.GetAnnotations)
      (Val.ofStringMap existingObject.GetAnnotations) = true)
    (hfields : ∀ f ∈ trackedFields, ∀ v, Fields.get? existingObject.Object f = some v →
      dd (Fields.index dryRunObject.Object f) v = true)
    (_hextra : extra ∈ trackedFields)
    (_hlacks : Fields.get? existingObject.Object extra = none)
    (_hcarries : (Fields.get? dryRunObject.Object extra).isSome = true) :
    hasDrifted dd existingObject dryRunObject = false := by
  rw [hasDrifted_eq_false_iff dd existingObject dryRunObject hrv]
  refine ⟨hlabels, hannotations, hfields, fun hnone => ?_⟩
  obtain ⟨f, hf, hs⟩ := hdefined
  rw [hnone f hf] at hs; cases hs

theorem hasDrifted_ignores_projection_only_field_witness :
    hasDrifted DeepDerivative (configMapWithData false) (configMapWithData true) = false :=
  hasDrifted_ignores_projection_only_field DeepDerivative (configMapWithData false)
    (configMapWithData true) "binaryData" (by decide) ⟨"data", by decide, by decide⟩
    (by decide) (by decide)
    (by
      intro f hf v hv
      simp only [trackedFields, List.mem_cons, List.mem_singleton, List.not_mem_nil,
        or_false] at hf
      rcases hf with rfl | rfl | rfl | rfl | rfl | rfl | rfl | rfl | rfl | rfl <;>
        simp [configMapWithData, Fields.get?] at hv
      subst hv; decide)
    (by decide) rfl (by decide)

/-- C20. Drift detection is reflexive on persisted objects: for every well-formed object X
(no map holds a key twice) with a non-empty resourceVersion, `hasDrifted(X, X)` returns
`false`; the comparison holds between X and itself on labels, on annotations, on each
tracked field X defines and on the whole object. -/
theorem hasDrifted_reflexive (X : Unstructured)
    (hrv : X.GetResourceVersion ≠ "") (hwf : X.WF = true) :
    hasDrifted DeepDerivative X X = false ∧
    DeepDerivative (Val.ofStringMap X.GetLabels) (Val.ofStringMap X.GetLabels) = true ∧
    DeepDerivative (Val.ofStringMap X.GetAnnotations) (Val.ofStringMap X.GetAnnotations)
      = true ∧
    (∀ f ∈ trackedFields, ∀ v, Fields.get? X.Object f = some v →
      DeepDerivative (Fields.index X.Object f) v = true) ∧
    DeepDerivative (.map X.Object) (.map X.Object) = true := by
  have hno : hasDrifted DeepDerivative X X = false :=
    hasDrifted_false_of_agree X X hrv hwf rfl rfl (fun _ _ _ hv => hv) (fun _ => rfl)
  have hall := (hasDrifted_eq_false_iff DeepDerivative X X hrv).1 hno
  exact ⟨hno, hall.1, hall.2.1, hall.2.2.1, DeepDerivative_refl _ hwf⟩

theorem hasDrifted_reflexive_witness :
    hasDrifted DeepDerivative (persistedSecret "aHVudGVyMg==") (persistedSecret "aHVudGVyMg==")
      = false ∧
    DeepDerivative (Val.ofStringMap (persistedSecret "aHVudGVyMg==").GetLabels)
      (Val.ofStringMap (persistedSecret "aHVudGVyMg==").GetLabels) = true ∧
    DeepDerivative (Val.ofStringMap (persistedSecret "aHVudGVyMg==").GetAnnotations)
      (Val.ofStringMap (persistedSecret "aHVudGVyMg==").GetAnnotations) = true ∧
    (∀ f ∈ trackedFields, ∀ v,
      Fields.get? (persistedSecret "aHVudGVyMg==").Object f = some v →
      DeepDerivative (Fields.index (persistedSecret "aHVudGVyMg==").Object f) v = true) ∧
    DeepDerivative (.map (persistedSecret "aHVudGVyMg==").Object)
      (.map (persistedSecret "aHVudGVyMg==").Object) = true :=
  hasDrifted_reflexive (persistedSecret "aHVudGVyMg==") (by decide) (by decide)

end ssa

namespace ssa

/-- C18, as stated, fails for serialisation: with a `yaml.Marshal` that fails on both
sides, `Diff` on a drifted Deployment still returns a ChangeSetEntry with Action Configured
and no error. -/
theorem Diff_marshal_failure_counterexample :
    failingMarshalExternals.Marshal (removeManagedFields (persistedDeployment 3))
      = .error (.leaf "yaml: unsupported type") ∧
    failingMarshalExternals.Marshal (removeManagedFields (persistedDeployment 5))
      = .error (.leaf "yaml: unsupported type") ∧
    actionOf (Diff DeepDerivative failingMarshalExternals
      (managerWith (persistedDeployment 3) (persistedDeployment 5)) deploymentObject)
      = some .ConfiguredAction := by
  refine ⟨rfl, rfl, by decide⟩

/-- C18, amended. In the Configured path of `Diff` (successful dry-run apply, non-empty
resourceVersion, `hasDrifted` true): if the projection is a Secret and masking either side
fails, `Diff` returns the error `masking secret data failed, error: <err>` wrapping the
masking error, and no ChangeSetEntry; otherwise `Diff` returns the Configured entry whose
diff text compares the two serialisations, where a side whose YAML serialisation failed
counts as the empty text (that error is discarded). -/
theorem Diff_configured_path_errors (dd : Val → Val → Bool) (x : Externals)
    (m : ResourceManager) (object dryRunObject : Unstructured)
    (hdry : m.dryRunApply object = .ok dryRunObject)
    (hrv : dryRunObject.GetResourceVersion ≠ "")
    (hdrift : hasDrifted dd (m.existingObject object) dryRunObject = true) :
    (dryRunObject.GetKind = "Secret" →
      ∀ err, x.MaskSecret (removeManagedFields dryRunObject) "******" = .error err →
        Diff dd x m object
          = .error (.wrap ("masking secret data failed, error: " ++ err.Error) err)) ∧
    (dryRunObject.GetKind = "Secret" →
      ∀ d err, x.MaskSecret (removeManagedFields dryRunObject) "******" = .ok d →
        x.MaskSecret (removeManagedFields (m.existingObject object)) "*****" = .error err →
        Diff dd x m object
          = .error (.wrap ("masking secret data failed, error: " ++ err.Error) err)) ∧
    (dryRunObject.GetKind = "Secret" →
      ∀ d ex, x.MaskSecret (removeManagedFields dryRunObject) "******" = .ok d →
        x.MaskSecret (removeManagedFields (m.existingObject object)) "*****" = .ok ex →
        Diff dd x m object
          = .ok ⟨object, .ConfiguredAction,
              x.cmpDiff (x.marshalString ex) (x.marshalString d)⟩) ∧
    (dryRunObject.GetKind ≠ "Secret" →
      Diff dd x m object
        = .ok ⟨object, .ConfiguredAction,
            x.cmpDiff (x.marshalString (removeManagedFields (m.existingObject object)))
              (x.marshalString (removeManagedFields dryRunObject))⟩) := by
  refine ⟨?_, ?_, ?_, ?_⟩
  · intro hkind err herr
    unfold Diff
    simp only [hdry, hrv, hdrift, if_false, if_true, GetKind_removeManagedFields, hkind, herr]
  · intro hkind d err hd herr
    unfold Diff
    simp only [hdry, hrv, hdrift, if_false, if_true, GetKind_removeManagedFields, hkind, hd,
      herr]
  · intro hkind d ex hd hex
    unfold Diff
    simp only [hdry, hrv, hdrift, if_false, if_true, GetKind_removeManagedFields, hkind, hd,
      hex, changeSetEntry]
  · intro hkind
    unfold Diff
    simp only [hdry, hrv, hdrift, if_false, if_true, GetKind_removeManagedFields, hkind,
      changeSetEntry]

end ssa

namespace ssa

theorem Diff_configured_path_errors_witness :
    Diff DeepDerivative sampleExternals
        (managerWith (persistedSecret "aHVudGVyMg==") malformedSecret) secretObject
      = .error (.wrap ("masking secret data failed, error: "
          ++ (GoError.leaf ".data accessor error: expected a map").Error)
          (.leaf ".data accessor error: expected a map")) :=
  (Diff_configured_path_errors DeepDerivative sampleExternals
    (managerWith (persistedSecret "aHVudGVyMg==") malformedSecret) secretObject
    malformedSecret rfl (by decide) (by decide)).1 (by decide)
    (.leaf ".data accessor error: expected a map") rfl

end ssa

namespace ssa

theorem differOnlyUnder_keys (allowed : String → Bool) :
    ∀ a b : Fields, differOnlyUnder allowed a b → a.map Prod.fst = b.map Prod.fst
  | [], [], _ => rfl
  | (k1, v1) :: r1, (k2, v2) :: r2, h => by
    simp only [differOnlyUnder] at h
    simp [h.1, differOnlyUnder_keys allowed r1 r2 h.2.2]
  | [], _ :: _, h => by simp [differOnlyUnder] at h
  | _ :: _, [], h => by simp [differOnlyUnder] at h

theorem differOnlyUnder_mono (p q : String → Bool) (hpq : ∀ k, p k = true → q k = true) :
    ∀ a b : Fields, differOnlyUnder p a b → differOnlyUnder q a b
  | [], [], _ => by simp [differOnlyUnder]
  | (k1, v1) :: r1, (k2, v2) :: r2, h => by
    simp only [differOnlyUnder] at h ⊢
    refine ⟨h.1, ?_, differOnlyUnder_mono p q hpq r1 r2 h.2.2⟩
    by_cases hq : q k1 = true
    · rw [if_pos hq]
      by_cases hp : p k1 = true
      · have := h.2.1; rwa [if_pos hp] at this
      · have := h.2.1; rw [if_neg hp] at this; exact Or.inl this
    · rw [if_neg hq]
      have hp : ¬ p k1 = true := fun hp => hq (hpq k1 hp)
      have := h.2.1; rwa [if_neg hp] at this
  | [], _ :: _, h => by simp [differOnlyUnder] at h
  | _ :: _, [], h => by simp [differOnlyUnder] at h

theorem differOnlyUnder_none_eq :
    ∀ a b : Fields, differOnlyUnder (fun _ => false) a b → a = b
  | [], [], _ => rfl
  | (k1, v1) :: r1, (k2, v2) :: r2, h => by
    simp only [differOnlyUnder, Bool.false_eq_true, if_false] at h
    rw [h.1, h.2.1, differOnlyUnder_none_eq r1 r2 h.2.2]
  | [], _ :: _, h => by simp [differOnlyUnder] at h
  | _ :: _, [], h => by simp [differOnlyUnder] at h

/-- Related field maps hold related values under every key. -/
theorem differOnlyUnder_get? (allowed : String → Bool) (k : String) :
    ∀ a b : Fields, differOnlyUnder allowed a b →
      (Fields.get? a k = none ∧ Fields.get? b k = none) ∨
      ∃ v w, Fields.get? a k = some v ∧ Fields.get? b k = some w ∧
        (if allowed k = true then sameKeys v w else v = w)
  | [], [], _ => by simp [Fields.get?]
  | (k1, v1) :: r1, (k2, v2) :: r2, h => by
    simp only [differOnlyUnder] at h
    obtain ⟨hk, hv, hr⟩ := h
    subst hk
    by_cases hkk : k1 = k
    · subst hkk
      right
      exact ⟨v1, v2, by simp [Fields.get?], by simp [Fields.get?], hv⟩
    · simp only [Fields.get?, hkk, if_false]
      exact differOnlyUnder_get? allowed k r1 r2 hr
  | [], _ :: _, h => by simp [differOnlyUnder] at h
  | _ :: _, [], h => by simp [differOnlyUnder] at h

theorem differOnlyUnder_get?_eq (allowed : String → Bool) (k : String) (a b : Fields)
    (h : differOnlyUnder allowed a b) (hk : allowed k = false) :
    Fields.get? a k = Fields.get? b k := by
  rcases differOnlyUnder_get? allowed k a b h with ⟨h1, h2⟩ | ⟨v, w, h1, h2, h3⟩
  · rw [h1, h2]
  · simp only [hk, Bool.false_eq_true, if_false] at h3
    rw [h1, h2, h3]

theorem sameKeys_refl (v : Val) : sameKeys v v := Or.inl rfl

/-- Writing the same value under the same key keeps two field maps related. -/
theorem differOnlyUnder_set (allowed : String → Bool) (k : String) (v : Val) :
    ∀ a b : Fields, differOnlyUnder allowed a b →
      differOnlyUnder allowed (Fields.set a k v) (Fields.set b k v)
  | [], [], _ => by simp [Fields.set, differOnlyUnder]
  | (k1, v1) :: r1, (k2, v2) :: r2, h => by
    simp only [differOnlyUnder] at h
    obtain ⟨hk, hv, hr⟩ := h
    subst hk
    unfold Fields.set
    by_cases hkk : k1 = k
    · simp only [hkk, if_true, differOnlyUnder]
      refine ⟨trivial, ?_, hr⟩
      split
      · exact sameKeys_refl v
      · trivial
    · simp only [hkk, if_false, differOnlyUnder]
      exact ⟨trivial, hv, differOnlyUnder_set allowed k v r1 r2 hr⟩
  | [], _ :: _, h => by simp [differOnlyUnder] at h
  | _ :: _, [], h => by simp [differOnlyUnder] at h

theorem Fields.get?_eq_none_of_not_mem (k : String) :
    ∀ a : Fields, k ∉ a.map Prod.fst → Fields.get? a k = none
  | [], _ => rfl
  | (k1, v1) :: r1, h => by
    simp only [List.map_cons, List.mem_cons, not_or] at h
    have hne : ¬ k1 = k := fun hh => h.1 hh.symm
    simp only [Fields.get?, hne, if_false]
    exact Fields.get?_eq_none_of_not_mem k r1 h.2

/-- Two related field maps without duplicate keys that hold the same value under `k` are
related without the allowance for `k`. -/
theorem differOnlyUnder_drop (allowed : String → Bool) (k : String) :
    ∀ a b : Fields, differOnlyUnder allowed a b → (a.map Prod.fst).Nodup →
      Fields.get? a k = Fields.get? b k →
      differOnlyUnder (fun s => allowed s && !(s == k)) a b
  | [], [], _, _, _ => by simp [differOnlyUnder]
  | (k1, v1) :: r1, (k2, v2) :: r2, h, hnd, hg => by
    simp only [differOnlyUnder] at h
    obtain ⟨hk, hv, hr⟩ := h
    subst hk
    simp only [List.map_cons, List.nodup_cons] at hnd
    simp only [differOnlyUnder]
    by_cases hkk : k1 = k
    · subst hkk
      simp only [Fields.get?, if_true, Option.some.injEq] at hg
      refine ⟨trivial, by simp [hg], ?_⟩
      apply differOnlyUnder_drop allowed k1 r1 r2 hr hnd.2
      rw [Fields.get?_eq_none_of_not_mem k1 r1 hnd.1,
        Fields.get?_eq_none_of_not_mem k1 r2
          (by rw [← differOnlyUnder_keys allowed r1 r2 hr]; exact hnd.1)]
    · simp only [Fields.get?, hkk, if_false] at hg
      refine ⟨trivial, ?_, differOnlyUnder_drop allowed k r1 r2 hr hnd.2 hg⟩
      have hb : (k1 == k) = false := by simp [hkk]
      simpa [hb] using hv
  | [], _ :: _, h, _, _ => by simp [differOnlyUnder] at h
  | _ :: _, [], h, _, _ => by simp [differOnlyUnder] at h

theorem Fields.set_keys (k : String) (v : Val) :
    ∀ a : Fields, (Fields.set a k v).map Prod.fst = a.map Prod.fst
  | [] => rfl
  | (k1, v1) :: r1 => by
    unfold Fields.set
    by_cases hkk : k1 = k
    · simp [hkk]
    · simp [hkk, Fields.set_keys k v r1]

theorem maskValues_eq_of_keys (mask : String) :
    ∀ m n : Fields, m.map Prod.fst = n.map Prod.fst → maskValues mask m = maskValues mask n
  | [], [], _ => rfl
  | (k1, v1) :: r1, (k2, v2) :: r2, h => by
    simp only [List.map_cons, List.cons.injEq] at h
    have ih := maskValues_eq_of_keys mask r1 r2 h.2
    unfold maskValues at ih ⊢
    simp [h.1, ih]
  | [], _ :: _, h => by simp at h
  | _ :: _, [], h => by simp at h

end ssa

namespace ssa

/-- Masking one field of two related field maps without duplicate keys fails on both with
the same error, or succeeds on both and leaves them related without the allowance for the
masked field. -/
theorem maskField_related (allowed : String → Bool) (mask k : String) (a b : Fields)
    (h : differOnlyUnder allowed a b) (hnd : (a.map Prod.fst).Nodup) :
    (∃ e, maskField mask k a = .error e ∧ maskField mask k b = .error e) ∨
    (∃ a2 b2, maskField mask k a = .ok a2 ∧ maskField mask k b = .ok b2 ∧
      differOnlyUnder (fun s => allowed s && !(s == k)) a2 b2 ∧ (a2.map Prod.fst).Nodup) := by
  have hset : ∀ val : Val, (∃ v, Fields.get? a k = some v) → (∃ w, Fields.get? b k = some w) →
      differOnlyUnder (fun s => allowed s && !(s == k)) (Fields.set a k val) (Fields.set b k val)
        ∧ ((Fields.set a k val).map Prod.fst).Nodup := by
    rintro val ⟨v, hv⟩ ⟨w, hw⟩
    refine ⟨?_, by rw [Fields.set_keys]; exact hnd⟩
    apply differOnlyUnder_drop allowed k _ _ (differOnlyUnder_set allowed k val a b h)
      (by rw [Fields.set_keys]; exact hnd)
    rw [Fields.get?_set, Fields.get?_set]
    simp [hv, hw]
  rcases differOnlyUnder_get? allowed k a b h with ⟨h1, h2⟩ | ⟨v, w, h1, h2, h3⟩
  · right
    refine ⟨a, b, by simp [maskField, h1], by simp [maskField, h2], ?_, hnd⟩
    exact differOnlyUnder_drop allowed k a b h hnd (by rw [h1, h2])
  · have hvw : v = w ∨ ∃ m n, v = .map m ∧ w = .map n ∧ m.map Prod.fst = n.map Prod.fst := by
      by_cases hp : allowed k = true
      · rw [if_pos hp] at h3; exact h3
      · rw [if_neg hp] at h3; exact Or.inl h3
    have herr : ∀ u : Val, (∀ mu, u ≠ .map mu) → Fields.get? a k = some u →
        Fields.get? b k = some u →
        ∃ e, maskField mask k a = .error e ∧ maskField mask k b = .error e := by
      intro u hu ha hb
      refine ⟨.leaf ("." ++ k ++ " accessor error: expected a map"), ?_, ?_⟩
      · unfold maskField; rw [ha]
        cases u with
        | map mu => exact absurd rfl (hu mu)
        | null => rfl
        | bool _ => rfl
        | num _ => rfl
        | str _ => rfl
        | seq _ => rfl
      · unfold maskField; rw [hb]
        cases u with
        | map mu => exact absurd rfl (hu mu)
        | null => rfl
        | bool _ => rfl
        | num _ => rfl
        | str _ => rfl
        | seq _ => rfl
    have hok : ∀ mv nw : Fields, Fields.get? a k = some (.map mv) →
        Fields.get? b k = some (.map nw) → mv.map Prod.fst = nw.map Prod.fst →
        ∃ a2 b2, maskField mask k a = .ok a2 ∧ maskField mask k b = .ok b2 ∧
          differOnlyUnder (fun s => allowed s && !(s == k)) a2 b2 ∧
          (a2.map Prod.fst).Nodup := by
      intro mv nw ha hb hkeys
      refine ⟨Fields.set a k (.map (maskValues mask mv)),
        Fields.set b k (.map (maskValues mask mv)), ?_, ?_, hset _ ⟨_, ha⟩ ⟨_, hb⟩⟩
      · unfold maskField; rw [ha]
      · unfold maskField; rw [hb, maskValues_eq_of_keys mask mv nw hkeys]
    rcases hvw with rfl | ⟨mv, nw, rfl, rfl, hkeys⟩
    · cases v with
      | map mv => right; exact hok mv mv h1 h2 rfl
      | null => left; exact herr _ (fun _ hh => by cases hh) h1 h2
      | bool _ => left; exact herr _ (fun _ hh => by cases hh) h1 h2
      | num _ => left; exact herr _ (fun _ hh => by cases hh) h1 h2
      | str _ => left; exact herr _ (fun _ hh => by cases hh) h1 h2
      | seq _ => left; exact herr _ (fun _ hh => by cases hh) h1 h2
    · right; exact hok mv nw h1 h2 hkeys

/-- Masking gives the same result on two objects that differ only in the values stored
under their data-bearing fields. -/
theorem MaskSecret_eq_of_differOnlyInDataValues (mask : String) (u w : Unstructured)
    (h : differOnlyInDataValues u w) (hnd : (u.Object.map Prod.fst).Nodup) :
    MaskSecret u mask = MaskSecret w mask := by
  unfold differOnlyInDataValues at h
  unfold MaskSecret
  rcases maskField_related _ mask "data" u.Object w.Object h hnd
    with ⟨e, h1, h2⟩ | ⟨a2, b2, h1, h2, hrel, hnd2⟩
  · rw [h1, h2]
  · rw [h1, h2]
    simp only
    rcases maskField_related _ mask "stringData" a2 b2 hrel hnd2
      with ⟨e, h3, h4⟩ | ⟨a3, b3, h3, h4, hrel3, _⟩
    · rw [h3, h4]
    · rw [h3, h4]
      simp only
      have hnone : differOnlyUnder (fun _ => false) a3 b3 := by
        apply differOnlyUnder_mono _ _ _ a3 b3 hrel3
        intro s hs
        simp only [dataBearingFields, List.mem_cons, List.mem_singleton, List.not_mem_nil,
          or_false, Bool.and_eq_true, decide_eq_true_eq, Bool.not_eq_true', beq_eq_false_iff_ne,
          ne_eq] at hs
        rcases hs.1.1 with hh | hh
        · exact absurd hh hs.1.2
        · exact absurd hh hs.2
      rw [differOnlyUnder_none_eq a3 b3 hnone]

/-- Removing `metadata.managedFields` keeps two objects related. -/
theorem differOnlyInDataValues_removeManagedFields (u w : Unstructured)
    (h : differOnlyInDataValues u w) :
    differOnlyInDataValues (removeManagedFields u) (removeManagedFields w) := by
  unfold differOnlyInDataValues at h ⊢
  unfold removeManagedFields
  simp only [RemoveNestedField_managedFields]
  have hg := differOnlyUnder_get?_eq _ "metadata" u.Object w.Object h (by decide)
  rw [← hg]
  split
  · exact differOnlyUnder_set _ _ _ _ _ h
  · exact h

theorem removeManagedFields_keys (u : Unstructured) :
    (removeManagedFields u).Object.map Prod.fst = u.Object.map Prod.fst := by
  unfold removeManagedFields
  simp only [RemoveNestedField_managedFields]
  split
  · exact Fields.set_keys _ _ _
  · rfl

theorem Unstructured.WF_keys_nodup (u : Unstructured) (h : u.WF = true) :
    (u.Object.map Prod.fst).Nodup := by
  unfold Unstructured.WF at h
  simp only [Val.WF, Bool.and_eq_true, decide_eq_true_eq] at h
  exact h.1

/-- What a Configured entry returned by `Diff` for a Secret is made of. -/
theorem Diff_configured_secret_inv (dd : Val → Val → Bool) (x : Externals)
    (m : ResourceManager) (object dryRunObject : Unstructured) (cse : ChangeSetEntry)
    (hdry : m.dryRunApply object = .ok dryRunObject)
    (hkind : dryRunObject.GetKind = "Secret")
    (h : Diff dd x m object = .ok cse) (hc : cse.Action = .ConfiguredAction) :
    ∃ d ex, x.MaskSecret (removeManagedFields dryRunObject) "******" = .ok d ∧
      x.MaskSecret (removeManagedFields (m.existingObject object)) "*****" = .ok ex ∧
      cse.Diff = x.cmpDiff (x.marshalString ex) (x.marshalString d) := by
  unfold Diff at h
  simp only [hdry] at h
  by_cases hrv : dryRunObject.GetResourceVersion = ""
  · simp only [hrv, if_true, changeSetEntry, Except.ok.injEq] at h
    rw [← h] at hc; cases hc
  · by_cases hd : hasDrifted dd (m.existingObject object) dryRunObject = true
    · simp only [hrv, hd, if_false, if_true, GetKind_removeManagedFields, hkind] at h
      cases hmd : x.MaskSecret (removeManagedFields dryRunObject) "******" with
      | error e => simp [hmd] at h
      | ok d =>
        cases hme : x.MaskSecret (removeManagedFields (m.existingObject object)) "*****" with
        | error e => simp [hmd, hme] at h
        | ok ex =>
          simp only [hmd, hme, changeSetEntry, Except.ok.injEq] at h
          exact ⟨d, ex, rfl, rfl, by rw [← h]⟩
    · simp only [hrv, hd, if_false, Bool.false_eq_true, changeSetEntry,
        Except.ok.injEq] at h
      rw [← h] at hc; cases hc

/-- C11. For Secret-kind objects, with `MaskSecret` as the spec describes it, the diff text
produced by `Diff` is independent of the real data values: for any two (existing,
projection) pairs of Secrets that differ only in the values stored under their
data-bearing fields (same keys, same everything else; objects well formed) and are both
classified Configured, `Diff` returns the same diff text. -/
theorem Diff_secret_diff_independent_of_values (dd : Val → Val → Bool) (x : Externals)
    (m1 m2 : ResourceManager) (object1 object2 dryRun1 dryRun2 : Unstructured)
    (cse1 cse2 : ChangeSetEntry)
    (hmask : x.MaskSecret = MaskSecret)
    (hdry1 : m1.dryRunApply object1 = .ok dryRun1)
    (hdry2 : m2.dryRunApply object2 = .ok dryRun2)
    (hkind1 : dryRun1.GetKind = "Secret") (hkind2 : dryRun2.GetKind = "Secret")
    (hwfE : (m1.existingObject object1).WF = true) (hwfD : dryRun1.WF = true)
    (hexisting : differOnlyInDataValues (m1.existingObject object1)
      (m2.existingObject object2))
    (hprojection : differOnlyInDataValues dryRun1 dryRun2)
    (h1 : Diff dd x m1 object1 = .ok cse1) (hc1 : cse1.Action = .ConfiguredAction)
    (h2 : Diff dd x m2 object2 = .ok cse2) (hc2 : cse2.Action = .ConfiguredAction) :
    cse1.Diff = cse2.Diff := by
  obtain ⟨d1, ex1, hd1, he1, hdiff1⟩ :=
    Diff_configured_secret_inv dd x m1 object1 dryRun1 cse1 hdry1 hkind1 h1 hc1
  obtain ⟨d2, ex2, hd2, he2, hdiff2⟩ :=
    Diff_configured_secret_inv dd x m2 object2 dryRun2 cse2 hdry2 hkind2 h2 hc2
  rw [hmask] at hd1 he1 hd2 he2
  have hD := MaskSecret_eq_of_differOnlyInDataValues "******" _ _
    (differOnlyInDataValues_removeManagedFields _ _ hprojection)
    (by rw [removeManagedFields_keys]; exact Unstructured.WF_keys_nodup _ hwfD)
  have hE := MaskSecret_eq_of_differOnlyInDataValues "*****" _ _
    (differOnlyInDataValues_removeManagedFields _ _ hexisting)
    (by rw [removeManagedFields_keys]; exact Unstructured.WF_keys_nodup _ hwfE)
  rw [hd1, hd2] at hD
  rw [he1, he2] at hE
  cases hD; cases hE
  rw [hdiff1, hdiff2]

end ssa

namespace ssa

theorem Diff_secret_diff_independent_of_values_witness :
    diffTextOf (Diff DeepDerivative sampleExternals
        (managerWith (persistedSecret "YQ==") (persistedSecret "Yg==")) secretObject)
      = diffTextOf (Diff DeepDerivative sampleExternals
        (managerWith (persistedSecret "Yw==") (persistedSecret "ZA==")) secretObject) :=
  congrArg some
    (Diff_secret_diff_independent_of_values DeepDerivative sampleExternals
      (managerWith (persistedSecret "YQ==") (persistedSecret "Yg=="))
      (managerWith (persistedSecret "Yw==") (persistedSecret "ZA=="))
      secretObject secretObject (persistedSecret "Yg==") (persistedSecret "ZA==")
      ⟨secretObject, .ConfiguredAction, maskedSecretDiffText⟩
      ⟨secretObject, .ConfiguredAction, maskedSecretDiffText⟩
      rfl rfl rfl (by decide) (by decide) (by decide) (by decide)
      (by simp [differOnlyInDataValues, differOnlyUnder, managerWith,
        ResourceManager.existingObject, persistedSecret, sameKeys, dataBearingFields])
      (by simp [differOnlyInDataValues, differOnlyUnder, persistedSecret, sameKeys,
        dataBearingFields])
      rfl rfl rfl rfl)

theorem maskField_get?_ne (mask k k2 : String) (obj r : Fields)
    (h : maskField mask k obj = .ok r) (hne : k2 ≠ k) :
    Fields.get? r k2 = Fields.get? obj k2 := by
  unfold maskField at h
  split at h
  · cases h; rfl
  · cases h; rw [Fields.get?_set]; simp [hne]
  · cases h

theorem maskField_get?_map (mask k : String) (obj r : Fields) (mv : Fields)
    (h : maskField mask k obj = .ok r) (hg : Fields.get? obj k = some (.map mv)) :
    Fields.get? r k = some (.map (maskValues mask mv)) := by
  unfold maskField at h
  rw [hg] at h
  simp only [Except.ok.injEq] at h
  rw [← h, Fields.get?_set]
  simp [hg]

/-- After masking, the `data` field holds the mask under every key it had. -/
theorem MaskSecret_get?_data (u r : Unstructured) (mask : String) (mv : Fields)
    (h : MaskSecret u mask = .ok r) (hg : Fields.get? u.Object "data" = some (.map mv)) :
    Fields.get? r.Object "data" = some (.map (maskValues mask mv)) := by
  unfold MaskSecret at h
  cases h1 : maskField mask "data" u.Object with
  | error e => simp [h1] at h
  | ok obj1 =>
    simp only [h1] at h
    cases h2 : maskField mask "stringData" obj1 with
    | error e => simp [h2] at h
    | ok obj2 =>
      simp only [h2, Except.ok.injEq] at h
      rw [← h]
      simp only
      rw [maskField_get?_ne mask "stringData" "data" obj1 obj2 h2 (by decide)]
      exact maskField_get?_map mask "data" u.Object obj1 mv h1 hg

theorem DeepDerivative_fields_false (k : String) (v w : Val) (gs : Fields) :
    ∀ fs : Fields, (k, v) ∈ fs → Fields.get? gs k = some w → DeepDerivative v w = false →
      DeepDerivative.fields fs gs = false
  | [], hmem, _, _ => by cases hmem
  | (k1, v1) :: rest, hmem, hg, hd => by
    simp only [DeepDerivative.fields]
    rcases List.mem_cons.1 hmem with heq | hmem
    · cases heq
      simp [hg, hd]
    · simp [DeepDerivative_fields_false k v w gs rest hmem hg hd]

/-- A value that differs under a key of `data` is drift. -/
theorem hasDrifted_of_data_value_differs (e d : Unstructured) (me md : Fields)
    (k a b : String)
    (hrv : d.GetResourceVersion ≠ "")
    (hdataE : Fields.get? e.Object "data" = some (.map me))
    (hdataD : Fields.get? d.Object "data" = some (.map md))
    (hvalD : Fields.get? md k = some (.str a)) (hvalE : Fields.get? me k = some (.str b))
    (hne : a ≠ b) :
    hasDrifted DeepDerivative e d = true := by
  cases hd : hasDrifted DeepDerivative e d with
  | true => rfl
  | false =>
    have hall := (hasDrifted_eq_false_iff DeepDerivative e d hrv).1 hd
    have hdata := hall.2.2.1 "data" (by decide) _ hdataE
    rw [Fields.index_of_get? _ _ _ hdataD] at hdata
    simp only [DeepDerivative] at hdata
    have hfalse := DeepDerivative_fields_false k (.str a) (.str b) me md
      (Fields.mem_of_get? md k _ hvalD) hvalE (by simp [DeepDerivative, hne])
    rw [hfalse] at hdata; cases hdata

theorem maskValues_ne_of_mask_ne (m1 m2 : String) (hm : m1 ≠ m2) (k : String) (v : Val) :
    ∀ (me md : Fields), Fields.get? me k = some v → maskValues m1 me ≠ maskValues m2 md
  | [], _, hg => by simp [Fields.get?] at hg
  | (k1, v1) :: r1, [], _ => by simp [maskValues]
  | (k1, v1) :: r1, (k2, v2) :: r2, _ => by
    simp only [maskValues, List.map_cons, ne_eq, List.cons.injEq, Prod.mk.injEq,
      Val.str.injEq, not_and]
    intro h
    exact absurd h.2 hm

/-- C12, as stated, fails: two Secrets with the same key under `data` and different real
values, otherwise identical, are classified Configured and the rendered diff text is not
empty: it shows the value masked with five stars on the existing side and with six stars
on the projection side. -/
theorem Diff_secret_same_keys_counterexample :
    (persistedSecret "YQ==").GetKind = "Secret" ∧
    differOnlyInDataValues (persistedSecret "YQ==") (persistedSecret "Yg==") ∧
    actionOf (Diff DeepDerivative sampleExternals
      (managerWith (persistedSecret "YQ==") (persistedSecret "Yg==")) secretObject)
      = some .ConfiguredAction ∧
    diffTextOf (Diff DeepDerivative sampleExternals
      (managerWith (persistedSecret "YQ==") (persistedSecret "Yg==")) secretObject)
      ≠ some "" := by
  refine ⟨by decide, ?_, by decide, by decide⟩
  simp [differOnlyInDataValues, differOnlyUnder, persistedSecret, sameKeys,
    dataBearingFields]

end ssa

/-! ## Theorems: `runtime/acl`, the selector loop -/

namespace acl

/-- The loop grants access exactly when it reaches a selector that builds and matches,
every selector before it having built. -/
theorem selectorLoop_allowed_iff (ls : LabelMap) (sels : List NamespaceSelector) :
    (∃ e, selectorLoop ls sels = some (true, e)) ↔
      ∃ pre s post, sels = pre ++ s :: post ∧
        (∀ t ∈ pre, (LabelSelectorAsSelector t.MatchLabels).isOk = true) ∧
        (LabelSelectorAsSelector s.MatchLabels).isOk = true ∧
        selectorPairsPresent ls s := by
  induction sels with
  | nil =>
    constructor
    · rintro ⟨e, he⟩; simp [selectorLoop] at he
    · rintro ⟨pre, s, post, h, _⟩; simp at h
  | cons t rest ih =>
    unfold selectorLoop
    cases hb : LabelSelectorAsSelector t.MatchLabels with
    | error err =>
      constructor
      · rintro ⟨e, he⟩; simp at he
      · rintro ⟨pre, s, post, h, hpre, hs, _⟩
        cases pre with
        | nil =>
          simp only [List.nil_append, List.cons.injEq] at h
          rw [← h.1, hb] at hs; simp [Except.isOk, Except.toBool] at hs
        | cons p pre2 =>
          simp only [List.cons_append, List.cons.injEq] at h
          have := hpre p (List.mem_cons_self _ _)
          rw [← h.1, hb] at this; simp [Except.isOk, Except.toBool] at this
    | ok sel =>
      simp only
      by_cases hm : sel.Matches ls = true
      · simp only [hm, if_true]
        constructor
        · intro _
          exact ⟨[], t, rest, rfl, by simp, by simp [hb, Except.isOk, Except.toBool],
            (Matches_iff_pairsPresent ls t sel hb).1 hm⟩
        · intro _; exact ⟨none, rfl⟩
      · simp only [hm, Bool.false_eq_true, if_false]
        rw [ih]
        constructor
        · rintro ⟨pre, s, post, h, hpre, hs, hp⟩
          refine ⟨t :: pre, s, post, by simp [h], ?_, hs, hp⟩
          intro u hu
          rcases List.mem_cons.1 hu with rfl | hu
          · simp [hb, Except.isOk, Except.toBool]
          · exact hpre u hu
        · rintro ⟨pre, s, post, h, hpre, hs, hp⟩
          cases pre with
          | nil =>
            simp only [List.nil_append, List.cons.injEq] at h
            rw [← h.1] at hp
            exact absurd ((Matches_iff_pairsPresent ls t sel hb).2 hp) hm
          | cons p pre2 =>
            simp only [List.cons_append, List.cons.injEq] at h
            exact ⟨pre2, s, post, h.2, fun u hu => hpre u (List.mem_cons_of_mem _ hu), hs, hp⟩

/-- The loop returns the error of a selector that fails to build when every selector before
it builds and does not match. -/
theorem selectorLoop_build_error (ls : LabelMap) (s : NamespaceSelector)
    (post : List NamespaceSelector) (err : GoError)
    (hs : LabelSelectorAsSelector s.MatchLabels = .error err) :
    ∀ pre : List NamespaceSelector,
      (∀ t ∈ pre, (LabelSelectorAsSelector t.MatchLabels).isOk = true
        ∧ ¬ selectorPairsPresent ls t) →
      selectorLoop ls (pre ++ s :: post) = some (false, some err) := by
  intro pre
  induction pre with
  | nil => intro _; simp [selectorLoop, hs]
  | cons t rest ih =>
    intro hpre
    have ht := hpre t (List.mem_cons_self _ _)
    simp only [List.cons_append]
    unfold selectorLoop
    cases hb : LabelSelectorAsSelector t.MatchLabels with
    | error e => rw [hb] at ht; simp [Except.isOk, Except.toBool] at ht
    | ok sel =>
      simp only
      have hm : ¬ sel.Matches ls = true :=
        fun hm => ht.2 ((Matches_iff_pairsPresent ls t sel hb).1 hm)
      simp only [hm, Bool.false_eq_true, if_false]
      exact ih (fun u hu => hpre u (List.mem_cons_of_mem _ hu))

/-- C2, amended. Cross-namespace reference, present policy, successful namespace-label
lookup: `HasAccessToRef` returns `true` if and only if some selector of the policy builds
without error, has all of its `matchLabels` pairs present in the requester namespace's
labels, and is preceded in the policy only by selectors that build without error; otherwise
it returns `false`. A selector that fails to build, when every selector before it builds
and does not match, makes it return `false` with that selector's error. -/
theorem HasAccessToRef_iff_selector_reached (client : Client) (object : Object)
    (reference : NamespacedName) (acl : AccessFrom) (ns : Namespace)
    (hne : reference.Namespace ≠ "") (hcross : object.Namespace ≠ reference.Namespace)
    (hget : client.Get object.Namespace = .ok ns) :
    ((HasAccessToRef client object reference (some acl)).allowed = true ↔
      ∃ pre s post, acl.NamespaceSelectors = pre ++ s :: post ∧
        (∀ t ∈ pre, (LabelSelectorAsSelector t.MatchLabels).isOk = true) ∧
        (LabelSelectorAsSelector s.MatchLabels).isOk = true ∧
        selectorPairsPresent ns.Labels s) ∧
    (∀ pre s post err, acl.NamespaceSelectors = pre ++ s :: post →
      (∀ t ∈ pre, (LabelSelectorAsSelector t.MatchLabels).isOk = true
        ∧ ¬ selectorPairsPresent ns.Labels t) →
      LabelSelectorAsSelector s.MatchLabels = .error err →
      HasAccessToRef client object reference (some acl)
        = ⟨false, some err, [.get object.Namespace]⟩) := by
  have hcond : ¬ (reference.Namespace = "" ∨ object.Namespace = reference.Namespace) := by
    rintro (h | h); exacts [hne h, hcross h]
  constructor
  · rw [← selectorLoop_allowed_iff]
    unfold HasAccessToRef
    rw [if_neg hcond]
    simp only [hget]
    cases hl : selectorLoop ns.Labels acl.NamespaceSelectors with
    | none => simp
    | some r =>
      obtain ⟨a, e⟩ := r
      simp
  · intro pre s post err hsplit hpre hs
    unfold HasAccessToRef
    rw [if_neg hcond]
    simp only [hget]
    rw [hsplit, selectorLoop_build_error ns.Labels s post err hs pre hpre]

theorem HasAccessToRef_iff_selector_reached_witness :
    (HasAccessToRef ⟨fun _ => .ok ⟨[("team", "a")]⟩⟩ ⟨"apps", "podinfo"⟩ ⟨"infra", "repo"⟩
        (some ⟨[⟨[("team", "a")]⟩, ⟨[("", "x")]⟩]⟩)).allowed = true :=
  (HasAccessToRef_iff_selector_reached ⟨fun _ => .ok ⟨[("team", "a")]⟩⟩ ⟨"apps", "podinfo"⟩
    ⟨"infra", "repo"⟩ ⟨[⟨[("team", "a")]⟩, ⟨[("", "x")]⟩]⟩ ⟨[("team", "a")]⟩
    (by decide) (by decide) rfl).1.2
    ⟨[], ⟨[("team", "a")]⟩, [⟨[("", "x")]⟩], rfl, by decide, by decide, by decide⟩

end acl

/-! ## Theorems: `ssa`, masked Secrets and stripped field ownership -/

namespace ssa

theorem maskField_ok_of_map_or_absent (mask k : String) (obj : Fields)
    (h : ∀ w, Fields.get? obj k = some w → ∃ mw, w = .map mw) :
    ∃ r, maskField mask k obj = .ok r := by
  unfold maskField
  cases hg : Fields.get? obj k with
  | none => exact ⟨obj, rfl⟩
  | some w =>
    obtain ⟨mw, rfl⟩ := h w hg
    exact ⟨_, rfl⟩

/-- Masking succeeds on an object whose data-bearing fields are maps where present. -/
theorem MaskSecret_ok_of_maps (u : Unstructured) (mask : String)
    (h : ∀ g ∈ dataBearingFields, ∀ w, Fields.get? u.Object g = some w → ∃ mw, w = .map mw) :
    ∃ r, MaskSecret u mask = .ok r := by
  unfold MaskSecret
  obtain ⟨obj1, h1⟩ := maskField_ok_of_map_or_absent mask "data" u.Object
    (h "data" (by decide))
  rw [h1]
  simp only
  obtain ⟨obj2, h2⟩ := maskField_ok_of_map_or_absent mask "stringData" obj1
    (by
      intro w hw
      rw [maskField_get?_ne mask "data" "stringData" u.Object obj1 h1 (by decide)] at hw
      exact h "stringData" (by decide) w hw)
  rw [h2]
  exact ⟨_, rfl⟩

/-- After masking, a data-bearing field holds the mask under every key it had. -/
theorem MaskSecret_get?_dataBearing (u r : Unstructured) (mask f : String) (mv : Fields)
    (h : MaskSecret u mask = .ok r) (hf : f ∈ dataBearingFields)
    (hg : Fields.get? u.Object f = some (.map mv)) :
    Fields.get? r.Object f = some (.map (maskValues mask mv)) := by
  simp only [dataBearingFields, List.mem_cons, List.mem_singleton, List.not_mem_nil,
    or_false] at hf
  rcases hf with rfl | rfl
  · exact MaskSecret_get?_data u r mask mv h hg
  · unfold MaskSecret at h
    cases h1 : maskField mask "data" u.Object with
    | error e => simp [h1] at h
    | ok obj1 =>
      simp only [h1] at h
      cases h2 : maskField mask "stringData" obj1 with
      | error e => simp [h2] at h
      | ok obj2 =>
        simp only [h2, Except.ok.injEq] at h
        rw [← h]
        simp only
        apply maskField_get?_map mask "stringData" obj1 obj2 mv h2
        rw [maskField_get?_ne mask "data" "stringData" u.Object obj1 h1 (by decide)]
        exact hg

/-- The outcome of `Diff` on a persisted Secret once both sides are masked. -/
theorem Diff_secret_masked (dd : Val → Val → Bool) (x : Externals) (m : ResourceManager)
    (object dryRunObject em dm : Unstructured)
    (hdry : m.dryRunApply object = .ok dryRunObject)
    (hrv : dryRunObject.GetResourceVersion ≠ "")
    (hkind : dryRunObject.GetKind = "Secret")
    (hmaskE : x.MaskSecret (removeManagedFields (m.existingObject object)) "*****" = .ok em)
    (hmaskD : x.MaskSecret (removeManagedFields dryRunObject) "******" = .ok dm) :
    (hasDrifted dd (m.existingObject object) dryRunObject = false ∧
      Diff dd x m object = .ok ⟨dryRunObject, .UnchangedAction, ""⟩) ∨
    (hasDrifted dd (m.existingObject object) dryRunObject = true ∧
      Diff dd x m object = .ok ⟨object, .ConfiguredAction,
        x.cmpDiff (x.marshalString em) (x.marshalString dm)⟩) := by
  cases hd : hasDrifted dd (m.existingObject object) dryRunObject with
  | false =>
    left
    refine ⟨rfl, ?_⟩
    unfold Diff
    simp only [hdry, hrv, hd, if_false, Bool.false_eq_true, changeSetEntry]
  | true =>
    right
    refine ⟨rfl, ?_⟩
    unfold Diff
    simp only [hdry, hrv, hd, if_false, if_true, GetKind_removeManagedFields, hkind, hmaskE,
      hmaskD, changeSetEntry]

/-- C12, amended. For every pair of persisted Secret objects (existing, projection) that
have identical key sets under their data-bearing fields (`data`, `stringData`, each a map
where present, with at least one key) and are otherwise identical, whatever the real
values, and for every comparison, serialiser and differ, with `MaskSecret` as the spec
describes it: masking succeeds on both sides and the two masked objects differ (under
every key the existing side reads `*****` and the projection side `******`); `Diff` either
classifies the projection Unchanged, with empty diff text, or classifies it Configured,
and then the diff text compares the serialisations of the two masked objects and is empty
only if the serialiser gives the same text for both. -/
theorem Diff_secret_same_keys_masked (dd : Val → Val → Bool) (x : Externals)
    (m : ResourceManager) (object dryRunObject : Unstructured)
    (f : String) (mv : Fields) (k : String) (v : Val)
    (hmask : x.MaskSecret = MaskSecret)
    (hdry : m.dryRunApply object = .ok dryRunObject)
    (hrv : dryRunObject.GetResourceVersion ≠ "")
    (hkind : dryRunObject.GetKind = "Secret")
    (hsame : differOnlyInDataValues (m.existingObject object) dryRunObject)
    (hmaps : ∀ g ∈ dataBearingFields, ∀ w,
      Fields.get? (m.existingObject object).Object g = some w → ∃ mw, w = .map mw)
    (hf : f ∈ dataBearingFields)
    (hfield : Fields.get? (m.existingObject object).Object f = some (.map mv))
    (hkey : Fields.get? mv k = some v) :
    ∃ em dm, MaskSecret (removeManagedFields (m.existingObject object)) "*****" = .ok em ∧
      MaskSecret (removeManagedFields dryRunObject) "******" = .ok dm ∧
      em.Object ≠ dm.Object ∧
      ((hasDrifted dd (m.existingObject object) dryRunObject = false ∧
          Diff dd x m object = .ok ⟨dryRunObject, .UnchangedAction, ""⟩) ∨
        (hasDrifted dd (m.existingObject object) dryRunObject = true ∧
          Diff dd x m object = .ok ⟨object, .ConfiguredAction,
            x.cmpDiff (x.marshalString em) (x.marshalString dm)⟩ ∧
          (x.cmpDiff (x.marshalString em) (x.marshalString dm) = "" ↔
            x.marshalString em = x.marshalString dm))) := by
  have hne_meta : ∀ g ∈ dataBearingFields, g ≠ "metadata" := by decide
  -- the projection holds maps with the same keys under the data-bearing fields
  have hproj : ∀ g ∈ dataBearingFields, ∀ mg,
      Fields.get? (m.existingObject object).Object g = some (.map mg) →
      ∃ ng, Fields.get? dryRunObject.Object g = some (.map ng) := by
    intro g hg mg hmg
    rcases differOnlyUnder_get? _ g _ _ hsame with ⟨h1, _⟩ | ⟨v1, w1, h1, h2, h3⟩
    · rw [h1] at hmg; cases hmg
    · rw [h1] at hmg
      cases hmg
      have hallowed : (decide (g ∈ dataBearingFields)) = true := by simp [hg]
      simp only [hallowed, if_true] at h3
      rcases h3 with heq | ⟨m1, n1, _, hw, _⟩
      · exact ⟨mg, by rw [h2, ← heq]⟩
      · exact ⟨n1, by rw [h2, hw]⟩
  have hmapsD : ∀ g ∈ dataBearingFields, ∀ w,
      Fields.get? dryRunObject.Object g = some w → ∃ mw, w = .map mw := by
    intro g hg w hw
    rcases differOnlyUnder_get? _ g _ _ hsame with ⟨_, h2⟩ | ⟨v1, w1, h1, h2, h3⟩
    · rw [h2] at hw; cases hw
    · rw [h2] at hw
      cases hw
      obtain ⟨mv1, rfl⟩ := hmaps g hg v1 h1
      have hallowed : (decide (g ∈ dataBearingFields)) = true := by simp [hg]
      simp only [hallowed, if_true] at h3
      rcases h3 with heq | ⟨m1, n1, _, hw, _⟩
      · exact ⟨mv1, heq.symm⟩
      · exact ⟨n1, hw⟩
  obtain ⟨em, hem⟩ := MaskSecret_ok_of_maps (removeManagedFields (m.existingObject object))
    "*****" (by
      intro g hg w hw
      rw [get?_removeManagedFields _ g (hne_meta g hg)] at hw
      exact hmaps g hg w hw)
  obtain ⟨dm, hdm⟩ := MaskSecret_ok_of_maps (removeManagedFields dryRunObject) "******" (by
      intro g hg w hw
      rw [get?_removeManagedFields _ g (hne_meta g hg)] at hw
      exact hmapsD g hg w hw)
  obtain ⟨nv, hnv⟩ := hproj f hf mv hfield
  have hgE := MaskSecret_get?_dataBearing _ em "*****" f mv hem hf
    (by rw [get?_removeManagedFields _ f (hne_meta f hf)]; exact hfield)
  have hgD := MaskSecret_get?_dataBearing _ dm "******" f nv hdm hf
    (by rw [get?_removeManagedFields _ f (hne_meta f hf)]; exact hnv)
  have hneq : em.Object ≠ dm.Object := by
    intro heq
    rw [heq, hgD] at hgE
    simp only [Option.some.injEq, Val.map.injEq] at hgE
    exact maskValues_ne_of_mask_ne "*****" "******" (by decide) k v mv nv hkey hgE.symm
  refine ⟨em, dm, hem, hdm, hneq, ?_⟩
  rcases Diff_secret_masked dd x m object dryRunObject em dm hdry hrv hkind
    (by rw [hmask]; exact hem) (by rw [hmask]; exact hdm) with ⟨h1, h2⟩ | ⟨h1, h2⟩
  · exact Or.inl ⟨h1, h2⟩
  · exact Or.inr ⟨h1, h2, x.cmpDiff_empty_iff _ _⟩

theorem Diff_secret_same_keys_masked_witness :
    ∃ em dm,
      MaskSecret (removeManagedFields
        ((managerWith (persistedSecret "YQ==") (persistedSecret "Yg==")).existingObject
          secretObject)) "*****" = .ok em ∧
      MaskSecret (removeManagedFields (persistedSecret "Yg==")) "******" = .ok dm ∧
      em.Object ≠ dm.Object ∧
      ((hasDrifted DeepDerivative
            ((managerWith (persistedSecret "YQ==") (persistedSecret "Yg==")).existingObject
              secretObject) (persistedSecret "Yg==") = false ∧
          Diff DeepDerivative sampleExternals
            (managerWith (persistedSecret "YQ==") (persistedSecret "Yg==")) secretObject
            = .ok ⟨persistedSecret "Yg==", .UnchangedAction, ""⟩) ∨
        (hasDrifted DeepDerivative
            ((managerWith (persistedSecret "YQ==") (persistedSecret "Yg==")).existingObject
              secretObject) (persistedSecret "Yg==") = true ∧
          Diff DeepDerivative sampleExternals
            (managerWith (persistedSecret "YQ==") (persistedSecret "Yg==")) secretObject
            = .ok ⟨secretObject, .ConfiguredAction,
              sampleExternals.cmpDiff (sampleExternals.marshalString em)
                (sampleExternals.marshalString dm)⟩ ∧
          (sampleExternals.cmpDiff (sampleExternals.marshalString em)
              (sampleExternals.marshalString dm) = "" ↔
            sampleExternals.marshalString em = sampleExternals.marshalString dm))) :=
  Diff_secret_same_keys_masked DeepDerivative sampleExternals
    (managerWith (persistedSecret "YQ==") (persistedSecret "Yg==")) secretObject
    (persistedSecret "Yg==") "data" [("password", .str "YQ==")] "password" (.str "YQ==")
    rfl rfl (by decide) (by decide)
    (by simp [differOnlyInDataValues, differOnlyUnder, managerWith,
      ResourceManager.existingObject, persistedSecret, sameKeys, dataBearingFields])
    (by
      intro g hg w hw
      simp only [dataBearingFields, List.mem_cons, List.mem_singleton, List.not_mem_nil,
        or_false] at hg
      rcases hg with rfl | rfl <;>
        simp [managerWith, ResourceManager.existingObject, persistedSecret,
          Fields.get?] at hw
      exact ⟨_, hw.symm⟩)
    (by decide) rfl rfl

/-- C7. At the failing input — existing: a ServiceAccount (no tracked field) persisted at
resourceVersion `"12"` whose `metadata.managedFields` names the manager `kubectl`;
projection: the same object with the manager `kustomize-controller` — `hasDrifted` is
true through the whole-object comparison, and `Diff` returns Action Configured with empty
diff text, for every serialiser and differ, because `metadata.managedFields` is removed
from both sides before they are rendered. -/
theorem Diff_configured_empty_diff_on_managedFields :
    (serviceAccountManagedBy "kustomize-controller").GetResourceVersion ≠ "" ∧
    hasDrifted DeepDerivative (serviceAccountManagedBy "kubectl")
      (serviceAccountManagedBy "kustomize-controller") = true ∧
    ∀ x : Externals,
      Diff DeepDerivative x
        (managerWith (serviceAccountManagedBy "kubectl")
          (serviceAccountManagedBy "kustomize-controller"))
        (serviceAccountManagedBy "kustomize-controller")
        = .ok ⟨serviceAccountManagedBy "kustomize-controller", .ConfiguredAction, ""⟩ := by
  refine ⟨by decide, by decide, fun x => ?_⟩
  have hrv : (serviceAccountManagedBy "kustomize-controller").GetResourceVersion ≠ "" := by
    decide
  have hd : hasDrifted DeepDerivative
      ((managerWith (serviceAccountManagedBy "kubectl")
        (serviceAccountManagedBy "kustomize-controller")).existingObject
        (serviceAccountManagedBy "kustomize-controller"))
      (serviceAccountManagedBy "kustomize-controller") = true := by decide
  have hk : (serviceAccountManagedBy "kustomize-controller").GetKind ≠ "Secret" := by decide
  have hstrip : removeManagedFields
      ((managerWith (serviceAccountManagedBy "kubectl")
        (serviceAccountManagedBy "kustomize-controller")).existingObject
        (serviceAccountManagedBy "kustomize-controller"))
      = removeManagedFields (serviceAccountManagedBy "kustomize-controller") := rfl
  have hdry : (managerWith (serviceAccountManagedBy "kubectl")
      (serviceAccountManagedBy "kustomize-controller")).dryRunApply
      (serviceAccountManagedBy "kustomize-controller")
      = .ok (serviceAccountManagedBy "kustomize-controller") := rfl
  unfold Diff
  simp only [hdry, hrv, hd, if_false, if_true, GetKind_removeManagedFields, hk, hstrip,
    changeSetEntry, (x.cmpDiff_empty_iff _ _).2 rfl]

end ssa
